import Mathlib

/-!
# Verification of the belonging-liquid simulation engine

A shallow embedding, in Lean 4, of the parts of the `belonging-liquid`
repository (a React/canvas "cultures as polygons populated by particles"
visualization) that the specification's testable claims are about.

The primary source file embedded here is the latest variant of the component
(`src/unnamed/part_000`, i.e. the shipped `final.tsx`); where a claim's cited
code only exists in the engine-only variant `src/src/final(no_UI).tsx`
(the kinship-derived polygon side count), that variant is embedded and the
divergence is noted at the definition.

Modelling conventions:
* JavaScript numbers are embedded as `ℝ` (for simulation geometry, where the
  source uses trigonometry) or `ℚ` (for the camera controller, whose
  arithmetic is exact in practice on the values involved).
* `Math.random()` draws, `Date.now()` and the animation-time parameter are
  passed in explicitly as oracle arguments; theorems quantify over them.
* `null`/`undefined` fields become `Option` values; JavaScript truthiness
  tests (`a || b`, `if (x)`) are embedded by the `jsOr` / `jsTruthy`
  helpers which are faithful to JS semantics (in particular `0` is falsy).
* In-place mutation of the particle array becomes structural recursion over
  a `List Particle`, threading the loop state (the exchange counters) that
  the source keeps in closures.
-/

namespace Belonging

/-! ## Basic data model -/

/-- The per-particle lifecycle state (the source's string-valued
`particle.state` field: `'contained' | 'activating' | 'flowing' | 'returning'`). -/
inductive PState where
  | contained
  | activating
  | flowing
  | returning
deriving DecidableEq, Repr

/-- Particle colors.  The source stores CSS strings; the only structured
color the engine itself builds is an `hsl(hue, sat%, light%)` triple, so we
keep the hue/saturation/lightness as real numbers and everything else as an
uninterpreted string. -/
inductive Color where
  | raw (s : String)
  | hsl (h s l : ℝ)

/-- The culture entity (subset of fields the embedded operations read). -/
structure Culture where
  id : ℕ
  name : String
  kinships : List String
  x : ℝ
  y : ℝ
  size : ℝ
  scale : ℝ
  sides : ℕ
  rotation : ℝ
  morphOffset : ℝ
  opacity : ℝ
  originalHue : Option ℝ
  isParentGroup : Bool
  interiorParticleCount : ℕ
  borderParticleCount : ℕ
  language : ℝ

/-- The particle entity, with every field the embedded operations touch.
Positions are local to the current logical container culture. -/
structure Particle where
  cultureId : ℕ
  homeCultureId : ℕ
  x : ℝ
  y : ℝ
  vx : ℝ
  vy : ℝ
  color : Color
  originalColor : Color
  size : ℝ
  wavePhase : ℝ
  state : PState
  targetCultureId : Option ℕ
  flowPartner : Option ℕ
  flowProgress : ℝ
  baseSpeed : Option ℝ
  activationDelay : ℝ
  activationStartTime : ℝ
  isBorderParticle : Bool
  borderEdgeIndex : ℤ
  borderEdgeT : ℝ
  borderFloatPhase : ℝ
  lastSwapTime : ℝ
  willExchange : Option Bool
  exchangeTargetId : Option ℕ

/-- JavaScript `a || b` on optional numeric ids: `a` wins iff it is truthy,
and the id `0` (like `null`/`undefined`) is falsy. -/
def jsOr (a b : Option ℕ) : Option ℕ :=
  match a with
  | some n => if n = 0 then b else some n
  | none => b

/-- JavaScript truthiness of an optional numeric id. -/
def jsTruthy (a : Option ℕ) : Prop :=
  match a with
  | some n => n ≠ 0
  | none => False

instance : DecidablePred jsTruthy := by
  intro a
  unfold jsTruthy
  match a with
  | some n => exact inferInstanceAs (Decidable (n ≠ 0))
  | none => exact inferInstanceAs (Decidable False)

/-! ## Camera controller

From `src/unnamed/part_000`: `WORLD_WIDTH`/`WORLD_HEIGHT` (lines 96-97),
`screenToWorld` (2272-2284), the drag branch of `handleMouseMove`
(2326-2346), `handleZoomIn`/`handleZoomOut` (2465-2511), and the canvas
transform applied by the animation loop
(`ctx.translate(-camera.x, -camera.y); ctx.scale(zoom, zoom)`). -/

def WORLD_WIDTH : ℚ := 12000
def WORLD_HEIGHT : ℚ := 9000

structure Camera where
  x : ℚ
  y : ℚ
  zoom : ℚ
deriving DecidableEq, Repr

/-- `screenToWorld` (canvas-local screen coordinates, i.e. the source's
`canvasX = screenX - rect.left` already applied):
`world = (canvas + offset) / zoom`. -/
def screenToWorld (cam : Camera) (sx sy : ℚ) : ℚ × ℚ :=
  ((sx + cam.x) / cam.zoom, (sy + cam.y) / cam.zoom)

/-- The world→device mapping the render loop installs each frame with
`ctx.translate(-camera.x, -camera.y)` followed by `ctx.scale(zoom, zoom)`:
a world point `w` is drawn at device point `w * zoom - offset`. -/
def worldToScreen (cam : Camera) (wx wy : ℚ) : ℚ × ℚ :=
  (wx * cam.zoom - cam.x, wy * cam.zoom - cam.y)

/-- Modelled from the spec: the screen↔world mapping the specification
asserts, `world = screen / zoom + offset` (to be compared against
`screenToWorld`, which the source actually implements). -/
def specScreenToWorld (cam : Camera) (sx sy : ℚ) : ℚ × ℚ :=
  (sx / cam.zoom + cam.x, sy / cam.zoom + cam.y)

/-- The drag branch of `handleMouseMove`: subtract the screen delta from the
offset, then clamp each axis to `[0, world - viewport]`.  `vw`/`vh` are the
measured canvas width/height. -/
def panMove (cam : Camera) (dx dy vw vh : ℚ) : Camera :=
  let x1 := cam.x - dx
  let y1 := cam.y - dy
  { x := max 0 (min (WORLD_WIDTH - vw) x1)
    y := max 0 (min (WORLD_HEIGHT - vh) y1)
    zoom := cam.zoom }

/-- `handleZoomIn`: multiply zoom by 1.2 clamped at 5, then recompute the
offset so the world point at the viewport center stays fixed.  No clamping
of the offset takes place. -/
def handleZoomIn (cam : Camera) (vw vh : ℚ) : Camera :=
  let centerX := vw / 2
  let centerY := vh / 2
  let newZoom := min 5 (cam.zoom * 1.2)
  let worldX := (centerX + cam.x) / cam.zoom
  let worldY := (centerY + cam.y) / cam.zoom
  { x := worldX * newZoom - centerX
    y := worldY * newZoom - centerY
    zoom := newZoom }

/-- `handleZoomOut`: multiply zoom by 0.8 clamped at 0.1, then recompute the
offset so the world point at the viewport center stays fixed.  No clamping
of the offset takes place. -/
def handleZoomOut (cam : Camera) (vw vh : ℚ) : Camera :=
  let centerX := vw / 2
  let centerY := vh / 2
  let newZoom := max 0.1 (cam.zoom * 0.8)
  let worldX := (centerX + cam.x) / cam.zoom
  let worldY := (centerY + cam.y) / cam.zoom
  { x := worldX * newZoom - centerX
    y := worldY * newZoom - centerY
    zoom := newZoom }

/-! ## Ingestion: polygon side count

From `src/src/final(no_UI).tsx`, `processCultures` (lines 265-284): after
merging records, every culture's side count is recomputed from the number of
kinship connections actually found in the dataset,
`culture.sides = Math.max(3, connectedCount)`.
(The full-UI variant `src/unnamed/part_000` instead trusts the precomputed
CSV `Sides` column; the kinship-derived computation only exists in the
engine variants, which are the ones the claim cites for this behavior.) -/

/-- JavaScript `hay.includes(needle)`: `needle` occurs as a contiguous
substring of `hay`. -/
def strIncludes (hay needle : String) : Prop :=
  needle.toList <:+: hay.toList

instance (hay needle : String) : Decidable (strIncludes hay needle) := by
  unfold strIncludes
  exact List.decidableInfix _ _

/-- The kinship test of `processCultures`: some declared kinship name of `c`
matches `other`'s name by case-insensitive substring inclusion in either
direction. -/
def isKin (c other : Culture) : Prop :=
  ∃ k ∈ c.kinships,
    strIncludes other.name.toLower k.toLower ∨
      strIncludes k.toLower other.name.toLower

instance (c other : Culture) : Decidable (isKin c other) := by
  unfold isKin
  infer_instance

/-- Number of kinship connections found for `c` among the other cultures
(cultures with the same id are skipped, exactly as the source skips
`culture.id === otherCulture.id`). -/
def connectedCount (cs : List Culture) (c : Culture) : ℕ :=
  (cs.filter (fun o => decide (o.id ≠ c.id ∧ isKin c o))).length

/-- The side-count pass of `processCultures`:
`culture.sides = Math.max(3, connectedCount)` for every culture. -/
def computeSides (cs : List Culture) : List Culture :=
  cs.map (fun c => { c with sides := max 3 (connectedCount cs c) })

/-! ## Boundary enforcement

From `src/unnamed/part_000`, `enforcePolygonBoundary` (lines 1311-1354);
the engine variant `src/src/final(no_UI).tsx` lines 1167-1210 is identical. -/

/-- Apothem of a culture's polygon: `radius * cos(π / sides)` with
`radius = size * scale / 2`. -/
noncomputable def apothemOf (c : Culture) : ℝ :=
  (c.size * c.scale / 2) * Real.cos (Real.pi / c.sides)

/-- Outward normal angle of edge `i`:
`rotation + morphOffset + angleStep * (i + 0.5)` with
`angleStep = 2π / sides`. -/
noncomputable def normalAngle (c : Culture) (i : ℕ) : ℝ :=
  c.rotation + c.morphOffset + (2 * Real.pi / c.sides) * ((i : ℝ) + 0.5)

/-- One iteration of the per-edge loop of `enforcePolygonBoundary`: soft-zone
velocity repulsion (15px before the hard boundary), then hard position clamp
with velocity reflection (energy factor 1.5) when the signed distance along
the edge normal exceeds the hard boundary. -/
noncomputable def boundaryEdgeStep (hardBoundary θ : ℝ) (p : Particle) : Particle :=
  let softZoneWidth : ℝ := 15
  let nx := Real.cos θ
  let ny := Real.sin θ
  let distToEdge := p.x * nx + p.y * ny
  let p1 :=
    if distToEdge > hardBoundary - softZoneWidth then
      let distanceIntoZone := distToEdge - (hardBoundary - softZoneWidth)
      let repulsionStrength := distanceIntoZone / softZoneWidth * 0.15
      { p with vx := p.vx - nx * repulsionStrength, vy := p.vy - ny * repulsionStrength }
    else p
  if distToEdge > hardBoundary then
    let overflow := distToEdge - hardBoundary
    let p2 := { p1 with x := p1.x - nx * overflow, y := p1.y - ny * overflow }
    let normalVel := p2.vx * nx + p2.vy * ny
    if normalVel > 0 then
      { p2 with vx := p2.vx - 1.5 * normalVel * nx, vy := p2.vy - 1.5 * normalVel * ny }
    else p2
  else p1

/-- `enforcePolygonBoundary`: run the edge step over all `sides` edges, in
edge order, each edge seeing the position already updated by the previous
edges.  The hard boundary is `apothem - 5`. -/
noncomputable def enforcePolygonBoundary (p : Particle) (c : Culture) : Particle :=
  (List.range c.sides).foldl
    (fun q i => boundaryEdgeStep (apothemOf c - 5) (normalAngle c i) q) p

/-- Signed distance of a particle from the culture center along the outward
normal direction `θ`. -/
noncomputable def distAlong (θ : ℝ) (p : Particle) : ℝ :=
  p.x * Real.cos θ + p.y * Real.sin θ

/-- A particle with all fields at their initial defaults, used as a base for
building concrete particles and as the `getD` fallback. -/
def blankParticle : Particle where
  cultureId := 1
  homeCultureId := 1
  x := 0
  y := 0
  vx := 0
  vy := 0
  color := Color.raw "hsl(0, 80%, 60%)"
  originalColor := Color.raw "hsl(0, 80%, 60%)"
  size := 2
  wavePhase := 0
  state := PState.contained
  targetCultureId := none
  flowPartner := none
  flowProgress := 0
  baseSpeed := none
  activationDelay := 0
  activationStartTime := 0
  isBorderParticle := false
  borderEdgeIndex := -1
  borderEdgeT := 0
  borderFloatPhase := 0
  lastSwapTime := 0
  willExchange := none
  exchangeTargetId := none

instance : Inhabited Particle := ⟨blankParticle⟩

/-- A culture with neutral defaults, used as a base for concrete cultures. -/
noncomputable def blankCulture : Culture where
  id := 1
  name := "culture"
  kinships := []
  x := 0
  y := 0
  size := 200
  scale := 1
  sides := 3
  rotation := 0
  morphOffset := 0
  opacity := 0.5
  originalHue := some 120
  isParentGroup := false
  interiorParticleCount := 50
  borderParticleCount := 12
  language := 3

noncomputable instance : Inhabited Culture := ⟨blankCulture⟩

/-- A concrete triangle culture (radius 100, so apothem 50): rotation is
`-π/3` so that edge 0's outward normal points along the positive x axis. -/
noncomputable def triCulture : Culture :=
  { blankCulture with
    sides := 3
    size := 200
    scale := 1
    rotation := -(Real.pi / 3)
    morphOffset := 0 }

/-- A contained particle of `triCulture` sitting on edge 0's hard boundary
but far along it, well outside the triangle. -/
def farParticle : Particle :=
  { blankParticle with x := 45, y := 1000 }

/-! ## Particle flow activation

From `src/unnamed/part_000`, `activateParticleFlow` (lines 951-1040).
This variant uses the exchange ratio `0.20` and the reverse ratio
`0.20 / connectedIds.length` (the engine-only variant uses `0.10` and a
flat `0.02`; the allocation logic is identical in both). -/

/-- The random draws `activateParticleFlow` makes, one group per particle
index: `flows i` is the outcome of `Math.random() < 0.5` for a
focused-culture interior particle, `revFlows i` the outcome of
`Math.random() < 0.1` for a connected-culture interior particle, `pick i`
the outcome of `Math.floor(Math.random() * connectedIds.length)`, and
`delay i`/`speed i` raw `[0,1)` draws for the timing fields. -/
structure ActRnd where
  flows : ℕ → Bool
  revFlows : ℕ → Bool
  pick : ℕ → ℕ
  delay : ℕ → ℝ
  speed : ℕ → ℝ

/-- `particlesRef.current.filter(p => p.homeCultureId === id && !p.isBorderParticle).length`. -/
def interiorCountOf (cid : ℕ) (ps : List Particle) : ℕ :=
  (ps.filter (fun p => p.homeCultureId == cid && !p.isBorderParticle)).length

/-- The body of the `particlesRef.current.map(...)` in `activateParticleFlow`,
as a recursion over the particle list at index `i`, threading the mutable
closure state `exchangeCount` (per-target marks handed out so far) and
`reverseUsed` (per-source reverse marks handed out so far). -/
def activateGo (focusedId : ℕ) (connectedIds : List ℕ) (perKinship : ℕ)
    (revCount : ℕ → ℕ) (now : ℝ) (r : ActRnd) :
    List Particle → ℕ → (ℕ → ℕ) → (ℕ → ℕ) → List Particle
  | [], _, _, _ => []
  | p :: rest, i, exchangeCount, reverseUsed =>
    -- Border particles NEVER participate in flows
    if p.isBorderParticle then
      p :: activateGo focusedId connectedIds perKinship revCount now r rest (i + 1)
        exchangeCount reverseUsed
    -- 50% of INTERIOR particles from focused culture will flow
    else if p.homeCultureId = focusedId ∧ r.flows i then
      let targetId := connectedIds.getD (r.pick i) 0
      let willEx : Bool := exchangeCount targetId < perKinship
      { p with
        state := PState.activating
        targetCultureId := some targetId
        flowPartner := some focusedId
        flowProgress := 0
        activationDelay := r.delay i * 2000
        activationStartTime := now
        baseSpeed := some (0.3 + r.speed i * 0.3)
        willExchange := some willEx
        exchangeTargetId := if willEx then some targetId else none } ::
        activateGo focusedId connectedIds perKinship revCount now r rest (i + 1)
          (if willEx then Function.update exchangeCount targetId (exchangeCount targetId + 1)
            else exchangeCount)
          reverseUsed
    -- 10% of INTERIOR particles from connected cultures will flow
    else if p.homeCultureId ∈ connectedIds ∧ r.revFlows i then
      let sourceId := p.homeCultureId
      let willEx : Bool := reverseUsed sourceId < revCount sourceId
      { p with
        state := PState.activating
        targetCultureId := some focusedId
        flowPartner := some p.homeCultureId
        flowProgress := 0
        activationDelay := r.delay i * 2000
        activationStartTime := now
        baseSpeed := some (0.3 + 0.3 * 0.3)
        willExchange := some willEx
        exchangeTargetId := if willEx then some focusedId else none } ::
        activateGo focusedId connectedIds perKinship revCount now r rest (i + 1)
          exchangeCount
          (if willEx then Function.update reverseUsed sourceId (reverseUsed sourceId + 1)
            else reverseUsed)
    else
      p :: activateGo focusedId connectedIds perKinship revCount now r rest (i + 1)
        exchangeCount reverseUsed

/-- `activateParticleFlow(focusedId, connectedIds)`: no-op on an empty
target list; otherwise compute `totalToExchange = floor(P * 0.20)` from the
focused culture's interior pool `P`, the per-target quota
`perKinship = floor(totalToExchange / N)`, the reverse quotas
`floor(Pᵢ * (0.20 / N))`, and map the marking pass over all particles. -/
def activateParticleFlow (focusedId : ℕ) (connectedIds : List ℕ) (now : ℝ)
    (r : ActRnd) (ps : List Particle) : List Particle :=
  if connectedIds = [] then ps
  else
    let totalToExchange := Nat.floor ((interiorCountOf focusedId ps : ℚ) * 0.20)
    let perKinship := totalToExchange / connectedIds.length
    let revCount : ℕ → ℕ := fun cid =>
      Nat.floor ((interiorCountOf cid ps : ℚ) * (0.20 / connectedIds.length))
    activateGo focusedId connectedIds perKinship revCount now r ps 0
      (fun _ => 0) (fun _ => 0)

/-- Number of particles of the focused culture's pool marked for exchange
toward target `t`. -/
def markedForTarget (focusedId t : ℕ) (ps : List Particle) : ℕ :=
  ps.countP (fun p =>
    p.homeCultureId == focusedId && p.willExchange == some true &&
      p.targetCultureId == some t)

/-- Number of particles of the focused culture's pool marked for exchange. -/
def markedTotal (focusedId : ℕ) (ps : List Particle) : ℕ :=
  ps.countP (fun p => p.homeCultureId == focusedId && p.willExchange == some true)

/-! ## Flow deactivation

From `src/unnamed/part_000`, `deactivateParticleFlow` (lines 1043-1119). -/

/-- The exchange target resolved at deactivation:
`particle.exchangeTargetId || (particle.willExchange ? particle.targetCultureId : null)`
with JavaScript truthiness. -/
def exchangeTargetOf (p : Particle) : Option ℕ :=
  jsOr p.exchangeTargetId
    (if p.willExchange = some true then p.targetCultureId else none)

/-- The body of the `particlesRef.current.map(...)` of `deactivateParticleFlow`
for one particle; `sat`/`light` are the two `Math.random()` draws used when a
pending color exchange is completed. -/
def deactivateOne (cs : List Culture) (sat light : ℝ) (p : Particle) : Particle :=
  -- Border particles should ALWAYS stay contained - force reset if needed
  if p.isBorderParticle then
    { p with
      state := PState.contained
      targetCultureId := none
      flowPartner := none
      activationDelay := 0
      activationStartTime := 0
      willExchange := none
      exchangeTargetId := none }
  else
    -- If particle is marked for exchange and has not swapped yet, do it now
    let finalColor :=
      if p.willExchange = some true ∧ jsTruthy (exchangeTargetOf p) then
        match cs.find? (fun c => exchangeTargetOf p == some c.id) with
        | some tc =>
          match tc.originalHue with
          | some hue => Color.hsl hue (80 + sat * 15) (55 + light * 10)
          | none => p.color
        | none => p.color
      else p.color
    -- If particle is away from home, make it visibly return
    if p.state = PState.flowing ∨ p.state = PState.activating then
      { p with
        color := finalColor
        state := PState.returning
        cultureId := p.homeCultureId
        targetCultureId := some p.homeCultureId
        flowPartner := none
        willExchange := none
        exchangeTargetId := none
        baseSpeed := some 0.5 }
    -- If already returning, keep current state but preserve color
    else if p.state = PState.returning then
      { p with
        color := finalColor
        targetCultureId := some p.homeCultureId
        flowPartner := none
        willExchange := none
        exchangeTargetId := none
        baseSpeed := some 0.5 }
    -- Already contained - preserve everything including color
    else
      { p with
        color := finalColor
        state := PState.contained
        cultureId := p.homeCultureId
        targetCultureId := none
        flowPartner := none
        activationDelay := 0
        activationStartTime := 0
        willExchange := none
        exchangeTargetId := none
        baseSpeed := none }

/-- `deactivateParticleFlow`: the per-particle reset mapped over the whole
particle list, with per-index random draws. -/
def deactivateParticleFlow (cs : List Culture) (r : ℕ → ℝ × ℝ) :
    List Particle → ℕ → List Particle
  | [], _ => []
  | p :: rest, i =>
    deactivateOne cs (r i).1 (r i).2 p :: deactivateParticleFlow cs r rest (i + 1)

/-! ## Per-tick particle update

From `src/unnamed/part_000`, the per-particle part of `drawParticles`
(lines 1414-1793), with canvas drawing dropped and the random draws and
clock passed in explicitly.  The low-probability border/interior swap that
the border branch performs on a *second* particle is modelled as its own
step of the transition system (`SimStep.swap` below), since it touches two
particles at once. -/

inductive VisualMode where
  | default
  | borderless
deriving DecidableEq, Repr

/-- `Math.atan2(y, x)`, embedded as the complex argument of `x + y·i`. -/
noncomputable def atan2 (y x : ℝ) : ℝ := Complex.arg ⟨x, y⟩

/-- The random draws one particle's tick update may consume. -/
structure TickRnd where
  b1 : ℝ
  b2 : ℝ
  drift : ℝ
  d1 : ℝ
  d2 : ℝ
  t1 : ℝ
  t2 : ℝ
  sat : ℝ
  light : ℝ
  rv1 : ℝ
  rv2 : ℝ

/-- The speed cap used by the contained/activating/travel physics:
rescale the velocity to `maxSpeed` when its norm exceeds it. -/
noncomputable def capSpeed (maxSpeed vx vy : ℝ) : ℝ × ℝ :=
  let speed := Real.sqrt (vx ^ 2 + vy ^ 2)
  if speed > maxSpeed then (vx / speed * maxSpeed, vy / speed * maxSpeed)
  else (vx, vy)

/-- Border-particle drift along its edge with perpendicular floating motion
(the `'contained'` branch for border particles in borderless mode). -/
noncomputable def borderFloatStep (culture : Culture) (time : ℝ) (r : TickRnd)
    (p : Particle) : Particle :=
  let angleStep := 2 * Real.pi / culture.sides
  let angle1 := culture.rotation + culture.morphOffset + angleStep * (p.borderEdgeIndex : ℝ)
  let angle2 := culture.rotation + culture.morphOffset +
    angleStep * ((((p.borderEdgeIndex + 1) % (culture.sides : ℤ)) : ℤ) : ℝ)
  let radius := culture.size * culture.scale / 2 - 12
  let x1 := Real.cos angle1 * radius
  let y1 := Real.sin angle1 * radius
  let x2 := Real.cos angle2 * radius
  let y2 := Real.sin angle2 * radius
  let baseX := x1 + (x2 - x1) * p.borderEdgeT
  let baseY := y1 + (y2 - y1) * p.borderEdgeT
  let edgeAngle := atan2 (y2 - y1) (x2 - x1)
  let perpAngle := edgeAngle + Real.pi / 2
  let floatAmount := Real.sin (time * 0.003 + p.borderFloatPhase) * 4
  { p with
    x := baseX + Real.cos perpAngle * floatAmount
    y := baseY + Real.sin perpAngle * floatAmount
    borderEdgeT := max 0 (min 1 (p.borderEdgeT + (r.drift - 0.5) * 0.002)) }

/-- Interior-particle physics in the `'contained'` state: brownian impulse,
two-zone radial pressure (single inward zone for parent groups), damping,
speed cap, Euler step, then polygon boundary enforcement. -/
noncomputable def interiorStep (culture : Culture) (r : TickRnd) (p : Particle) : Particle :=
  let brownianForce : ℝ := if culture.isParentGroup then 0.15 else 0.08
  let vx1 := p.vx + (r.b1 - 0.5) * brownianForce
  let vy1 := p.vy + (r.b2 - 0.5) * brownianForce
  let distFromCenter := Real.sqrt (p.x ^ 2 + p.y ^ 2)
  let maxRadius := culture.size * culture.scale / 2 - 40
  let v2 : ℝ × ℝ :=
    if culture.isParentGroup then
      if distFromCenter > maxRadius * 0.8 then
        let inwardForce := (0.002 : ℝ)
        let radiusDiff := distFromCenter - maxRadius * 0.8
        let angleToCenter := atan2 (-p.y) (-p.x)
        (vx1 + Real.cos angleToCenter * inwardForce * (radiusDiff / 20),
          vy1 + Real.sin angleToCenter * inwardForce * (radiusDiff / 20))
      else (vx1, vy1)
    else
      if distFromCenter < maxRadius * 0.3 then
        let outwardForce := (0.001 : ℝ)
        let radiusDiff := maxRadius * 0.3 - distFromCenter
        let angleFromCenter := atan2 p.y p.x
        (vx1 + Real.cos angleFromCenter * outwardForce * (radiusDiff / 100),
          vy1 + Real.sin angleFromCenter * outwardForce * (radiusDiff / 100))
      else if distFromCenter > maxRadius * 0.7 then
        let inwardForce := (0.002 : ℝ)
        let radiusDiff := distFromCenter - maxRadius * 0.7
        let angleToCenter := atan2 (-p.y) (-p.x)
        (vx1 + Real.cos angleToCenter * inwardForce * (radiusDiff / 100),
          vy1 + Real.sin angleToCenter * inwardForce * (radiusDiff / 100))
      else (vx1, vy1)
  let vx3 := v2.1 * 0.97
  let vy3 := v2.2 * 0.97
  let v4 := capSpeed 0.8 vx3 vy3
  enforcePolygonBoundary
    { p with x := p.x + v4.1, y := p.y + v4.2, vx := v4.1, vy := v4.2 } culture

/-- The `'activating'` behavior before the activation delay elapses:
contained-style random walk (brownian 0.08, damping 0.97, cap 0.8) plus
boundary enforcement. -/
noncomputable def activatingWaitStep (culture : Culture) (r : TickRnd) (p : Particle) : Particle :=
  let vx1 := p.vx + (r.b1 - 0.5) * 0.08
  let vy1 := p.vy + (r.b2 - 0.5) * 0.08
  let vx2 := vx1 * 0.97
  let vy2 := vy1 * 0.97
  let v3 := capSpeed 0.8 vx2 vy2
  enforcePolygonBoundary
    { p with x := p.x + v3.1, y := p.y + v3.2, vx := v3.1, vy := v3.2 } culture

/-- The `'activating'` blend toward directed flow once the delay elapsed and
the target culture exists: growing outward steering, shrinking containment
pull, Euler step; `st` is the (possibly already advanced) state. -/
noncomputable def activatingBlendStep (culture tc : Culture) (progress : ℝ)
    (st : PState) (p : Particle) : Particle :=
  let worldX := culture.x + p.x
  let worldY := culture.y + p.y
  let dx := tc.x - worldX
  let dy := tc.y - worldY
  let distance := Real.sqrt (dx ^ 2 + dy ^ 2)
  let v1 : ℝ × ℝ :=
    if distance > 0 then
      let dirX := dx / distance
      let dirY := dy / distance
      let outwardForce := 0.01 * progress
      let vxa := p.vx + dirX * outwardForce
      let vya := p.vy + dirY * outwardForce
      let containmentStrength := 1 - progress
      let dist := Real.sqrt (p.x ^ 2 + p.y ^ 2)
      let maxDist := culture.size * culture.scale / 2 - 12
      if dist > maxDist ∧ containmentStrength > 0 then
        let angle := atan2 p.y p.x
        let pullBack := (dist - maxDist) * containmentStrength * 0.1
        (vxa - Real.cos angle * pullBack, vya - Real.sin angle * pullBack)
      else (vxa, vya)
    else (p.vx, p.vy)
  { p with state := st, x := p.x + v1.1, y := p.y + v1.2, vx := v1.1, vy := v1.2 }

/-- Directed travel of a `'flowing'`/`'returning'` particle toward its
target: steering, perpendicular dispersion, longitudinal turbulence,
damping, per-particle speed cap (note `baseSpeed || 0.4`: a zero base speed
falls back to 0.4, mirroring JS truthiness). -/
noncomputable def travelStep (culture tc : Culture) (r : TickRnd) (p : Particle) : Particle :=
  let worldX := culture.x + p.x
  let worldY := culture.y + p.y
  let dx := tc.x - worldX
  let dy := tc.y - worldY
  let distance := Real.sqrt (dx ^ 2 + dy ^ 2)
  let dirX := dx / distance
  let dirY := dy / distance
  let bs : ℝ := match p.baseSpeed with
    | some b => if b = 0 then 0.4 else b
    | none => 0.4
  let maxSpeed := bs * 0.6
  let steeringForce := (0.003 : ℝ)
  let damping := (0.992 : ℝ)
  let vx1 := p.vx + dirX * steeringForce
  let vy1 := p.vy + dirY * steeringForce
  let perpX := -dirY
  let perpY := dirX
  let dispersionStrength := (0.08 : ℝ)
  let vx2 := vx1 + perpX * (r.d1 - 0.5) * dispersionStrength
  let vy2 := vy1 + perpY * (r.d2 - 0.5) * dispersionStrength
  let turbulence := (0.025 : ℝ)
  let vx3 := vx2 + (r.t1 - 0.5) * turbulence
  let vy3 := vy2 + (r.t2 - 0.5) * turbulence
  let vx4 := vx3 * damping
  let vy4 := vy3 * damping
  let v5 := capSpeed maxSpeed vx4 vy4
  let newWorldX := worldX + v5.1
  let newWorldY := worldY + v5.2
  { p with x := newWorldX - culture.x, y := newWorldY - culture.y, vx := v5.1, vy := v5.2 }

/-- Arrival of a `'flowing'` particle at its target: when pre-marked for
exchange, mutate the color to the target's hue and turn home; otherwise
re-parent logically to the target (whose id the arrival lookup matched) and
swap target/partner, staying `'flowing'`. -/
noncomputable def arriveFlowing (cs : List Culture) (culture tc : Culture)
    (r : TickRnd) (p : Particle) : Particle :=
  if p.willExchange = some true then
    let newColor :=
      match cs.find? (fun c => p.targetCultureId == some c.id) with
      | some tc2 =>
        match tc2.originalHue with
        | some hue => Color.hsl hue (80 + r.sat * 15) (55 + r.light * 10)
        | none => p.color
      | none => p.color
    { p with
      color := newColor
      state := PState.returning
      targetCultureId := some p.homeCultureId
      flowPartner := none
      willExchange := none }
  else
    let worldX := culture.x + p.x
    let worldY := culture.y + p.y
    -- `particle.cultureId = particle.targetCultureId`: the arrival lookup
    -- matched `tc` through `c.id === particle.targetCultureId`, so the
    -- assigned id is `tc.id`.
    { p with
      cultureId := tc.id
      x := worldX - tc.x
      y := worldY - tc.y
      vx := p.vx * 0.7
      vy := p.vy * 0.7
      targetCultureId := p.flowPartner
      flowPartner := p.targetCultureId }

/-- Arrival of a `'returning'` particle at home: clamp into the contained
radius, randomize the velocity, revert to `'contained'` and clear the
transient flow fields. -/
noncomputable def arriveReturning (tc : Culture) (r : TickRnd) (p : Particle) : Particle :=
  let angle := atan2 p.y p.x
  let currentDist := Real.sqrt (p.x ^ 2 + p.y ^ 2)
  let maxDist := tc.size * tc.scale / 2 - 15
  let pos : ℝ × ℝ :=
    if currentDist > maxDist then (Real.cos angle * maxDist, Real.sin angle * maxDist)
    else (p.x, p.y)
  { p with
    cultureId := p.homeCultureId
    x := pos.1
    y := pos.2
    vx := (r.rv1 - 0.5) * 0.3
    vy := (r.rv2 - 0.5) * 0.3
    state := PState.contained
    targetCultureId := none
    baseSpeed := none
    willExchange := none }

/-- The `'contained'` dispatch of the tick: border particles are inert in
default mode, float along their edge in borderless mode; interior particles
run the contained physics. -/
noncomputable def tickContained (culture : Culture) (mode : VisualMode)
    (time : ℝ) (r : TickRnd) (p : Particle) : Particle :=
  if p.isBorderParticle ∧ mode = VisualMode.default then p
  else if mode = VisualMode.borderless ∧ p.isBorderParticle then
    borderFloatStep culture time r p
  else
    interiorStep culture r p

/-- The `'activating'` dispatch of the tick.  Before the delay: contained
random walk.  After it: the state advances to `'flowing'` as soon as the
blend completes — *before* the target lookup — and a missing target then
freezes the particle at its position. -/
noncomputable def tickActivating (cs : List Culture) (culture : Culture)
    (now : ℝ) (r : TickRnd) (p : Particle) : Particle :=
  let elapsedTime := now - p.activationStartTime
  if elapsedTime < p.activationDelay then
    activatingWaitStep culture r p
  else
    let transitionProgress := min 1 ((elapsedTime - p.activationDelay) / 1000)
    let st := if transitionProgress ≥ 1 then PState.flowing else PState.activating
    match cs.find? (fun c => p.targetCultureId == some c.id) with
    | none => { p with state := st }
    | some tc => activatingBlendStep culture tc transitionProgress st p

/-- The `'flowing'`/`'returning'` dispatch of the tick: a missing target
skips the particle; otherwise travel until within the arrival threshold,
then run the arrival action for the current state. -/
noncomputable def tickFlowingReturning (cs : List Culture) (culture : Culture)
    (r : TickRnd) (p : Particle) : Particle :=
  match cs.find? (fun c => p.targetCultureId == some c.id) with
  | none => p
  | some tc =>
    let worldX := culture.x + p.x
    let worldY := culture.y + p.y
    let dx := tc.x - worldX
    let dy := tc.y - worldY
    let distance := Real.sqrt (dx ^ 2 + dy ^ 2)
    let arrivalDistance := tc.size * tc.scale / 2 - 30
    if distance > arrivalDistance then
      travelStep culture tc r p
    else if p.state = PState.flowing then
      arriveFlowing cs culture tc r p
    else
      arriveReturning tc r p

/-- The tick body once the container culture has been resolved: invisible
cultures (`opacity < 0.15`) freeze their particles; otherwise dispatch on
the particle state. -/
noncomputable def tickGuarded (cs : List Culture) (mode : VisualMode)
    (time now : ℝ) (r : TickRnd) (culture : Culture) (p : Particle) : Particle :=
  if culture.opacity < 0.15 then p
  else
    match p.state with
    | PState.contained => tickContained culture mode time r p
    | PState.activating => tickActivating cs culture now r p
    | PState.flowing | PState.returning => tickFlowingReturning cs culture r p

/-- One particle's update for one tick of `drawParticles` (drawing dropped,
border/interior swap factored out as a separate step).  A missing container
culture makes the update a no-op on this particle. -/
noncomputable def tickOne (cs : List Culture) (mode : VisualMode) (time now : ℝ)
    (r : TickRnd) (p : Particle) : Particle :=
  match cs.find? (fun c => c.id == p.cultureId) with
  | none => p
  | some culture => tickGuarded cs mode time now r culture p

/-- The per-particle tick update mapped over the whole particle list. -/
noncomputable def tickParticles (cs : List Culture) (mode : VisualMode)
    (time now : ℝ) (r : ℕ → TickRnd) : List Particle → ℕ → List Particle
  | [], _ => []
  | p :: rest, i =>
    tickOne cs mode time now (r i) p :: tickParticles cs mode time now r rest (i + 1)

/-! ## Randomize, border reset, initialization

From `src/unnamed/part_000`: the particle loop of `randomizeCulturePositions`
(lines 696-719, the variant that explicitly does **not** rebalance
border/interior counts), `resetAllBorderParticles` (lines 521-575) and
`initializeParticles` (lines 416-520).
(The engine-only variant `src/src/final(no_UI).tsx` lines 584-612 instead
*reassigns* `isBorderParticle` during randomize; the shipped variant
embedded here preserves it, matching its own comment.) -/

/-- The per-particle reset of `randomizeCulturePositions`: back to the home
culture, `'contained'`, flow fields cleared, velocity zeroed (border) or
redrawn (interior); position, color and the border/interior class are left
alone. -/
noncomputable def resetOne (rv : ℝ × ℝ) (p : Particle) : Particle :=
  { p with
    cultureId := p.homeCultureId
    state := PState.contained
    targetCultureId := none
    flowPartner := none
    activationDelay := 0
    activationStartTime := 0
    vx := if p.isBorderParticle then 0 else (rv.1 - 0.5) * 0.3
    vy := if p.isBorderParticle then 0 else (rv.2 - 0.5) * 0.3 }

/-- The particle pass of `randomizeCulturePositions`: every particle whose
home culture is (still) in the culture list is reset. -/
noncomputable def randomizeParticles (cultureIds : List ℕ) (rv : ℕ → ℝ × ℝ) :
    List Particle → ℕ → List Particle
  | [], _ => []
  | p :: rest, i =>
    (if p.homeCultureId ∈ cultureIds then resetOne (rv i) p else p) ::
      randomizeParticles cultureIds rv rest (i + 1)

/-- The random draws used when creating one particle. -/
structure InitRnd where
  angle : ℝ
  radius : ℝ
  sat : ℝ
  light : ℝ
  vx : ℝ
  vy : ℝ
  speed : ℝ
  phase : ℝ
  sizeJitter : ℝ
  float : ℝ

/-- `hsl(${hue}, ...)` where the hue may be missing from the record
(JS would then print `hsl(undefined, ...)`). -/
noncomputable def initColor (hue : Option ℝ) (sat light : ℝ) : Color :=
  match hue with
  | some h => Color.hsl h sat light
  | none => Color.raw "hsl(undefined)"

/-- One interior particle of `initializeParticles`. -/
noncomputable def interiorInit (c : Culture) (q : InitRnd) : Particle :=
  let angle := q.angle * (2 * Real.pi)
  let radius := q.radius * (c.size / 2 - 20)
  let saturation := 80 + q.sat * 15
  let lightness := 55 + q.light * 10
  { cultureId := c.id
    homeCultureId := c.id
    x := Real.cos angle * radius
    y := Real.sin angle * radius
    vx := (q.vx - 0.5) * 0.3
    vy := (q.vy - 0.5) * 0.3
    color := initColor c.originalHue saturation lightness
    originalColor := initColor c.originalHue saturation lightness
    size := c.language * 0.6 + q.sizeJitter * 2
    wavePhase := q.phase * (2 * Real.pi)
    state := PState.contained
    targetCultureId := none
    flowPartner := none
    flowProgress := 0
    baseSpeed := some (0.3 + q.speed * 0.3)
    activationDelay := 0
    activationStartTime := 0
    isBorderParticle := false
    borderEdgeIndex := -1
    borderEdgeT := 0
    borderFloatPhase := q.float * (2 * Real.pi)
    lastSwapTime := 0
    willExchange := none
    exchangeTargetId := none }

/-- One border particle (index `j` of `borderCount`), placed along the
polygon edges; shared by `initializeParticles` (`radius = size/2 - 12`) and
`resetAllBorderParticles`.  `hue` is the culture hue actually used. -/
noncomputable def borderInit (c : Culture) (hue : Option ℝ) (borderCount : ℕ)
    (j : ℕ) (q : InitRnd) : Particle :=
  let edgeProgress := (j : ℝ) / borderCount
  let totalEdgeLength := (c.sides : ℝ)
  let position := edgeProgress * totalEdgeLength
  let edgeIndex : ℤ := ⌊position⌋
  let edgeT := position - (edgeIndex : ℝ)
  let angleStep := 2 * Real.pi / c.sides
  let angle1 := angleStep * (edgeIndex : ℝ)
  let angle2 := angleStep * ((((edgeIndex + 1) % (c.sides : ℤ)) : ℤ) : ℝ)
  let radius := c.size / 2 - 12
  let x1 := Real.cos angle1 * radius
  let y1 := Real.sin angle1 * radius
  let x2 := Real.cos angle2 * radius
  let y2 := Real.sin angle2 * radius
  let saturation := 80 + q.sat * 15
  let lightness := 55 + q.light * 10
  { cultureId := c.id
    homeCultureId := c.id
    x := x1 + (x2 - x1) * edgeT
    y := y1 + (y2 - y1) * edgeT
    vx := 0
    vy := 0
    color := initColor hue saturation lightness
    originalColor := initColor hue saturation lightness
    size := c.language * 0.6 + q.sizeJitter * 2
    wavePhase := q.phase * (2 * Real.pi)
    state := PState.contained
    targetCultureId := none
    flowPartner := none
    flowProgress := 0
    baseSpeed := some 0
    activationDelay := 0
    activationStartTime := 0
    isBorderParticle := true
    borderEdgeIndex := edgeIndex
    borderEdgeT := edgeT
    borderFloatPhase := q.float * (2 * Real.pi)
    lastSwapTime := 0
    willExchange := none
    exchangeTargetId := none }

/-- The particles `initializeParticles` creates for one non-parent culture:
`interiorParticleCount` interior particles then `borderParticleCount`
border particles. -/
noncomputable def initCultureParticles (c : Culture) (ri rb : ℕ → InitRnd) :
    List Particle :=
  (List.range c.interiorParticleCount).map (fun j => interiorInit c (ri j)) ++
    (List.range c.borderParticleCount).map
      (fun j => borderInit c c.originalHue c.borderParticleCount j (rb j))

/-- `initializeParticles`: particles for every non-parent culture, in
culture order. -/
noncomputable def initGo (ri rb : ℕ → ℕ → InitRnd) : List Culture → ℕ → List Particle
  | [], _ => []
  | c :: rest, ci =>
    (if c.isParentGroup then [] else initCultureParticles c (ri ci) (rb ci)) ++
      initGo ri rb rest (ci + 1)

/-- `culture.borderParticleCount || (culture.sides * 4)` (JS truthiness:
a zero count falls back to `sides * 4`). -/
def borderCountOf (c : Culture) : ℕ :=
  if c.borderParticleCount = 0 then c.sides * 4 else c.borderParticleCount

/-- `resetAllBorderParticles`: per non-parent culture, drop its border
particles and append `borderCountOf` fresh ones (state `'contained'`,
radius `size/2 - 12`, hue falling back to a random one when the culture has
none — `hueFallback` supplies that draw). -/
noncomputable def resetBordersGo (rb : ℕ → ℕ → InitRnd) (hueFallback : ℕ → ℝ) :
    List Culture → ℕ → List Particle → List Particle
  | [], _, ps => ps
  | c :: rest, ci, ps =>
    if c.isParentGroup then resetBordersGo rb hueFallback rest (ci + 1) ps
    else
      let hue : Option ℝ :=
        match c.originalHue with
        | some h => some h
        | none => some (hueFallback ci * 360)
      resetBordersGo rb hueFallback rest (ci + 1)
        (ps.filter (fun p => !(p.homeCultureId == c.id && p.isBorderParticle)) ++
          (List.range (borderCountOf c)).map
            (fun j => borderInit c hue (borderCountOf c) j (rb ci j)))

/-- One particle of a freshly created synthetic parent group (the
aggregation engine seeds 80 of these, all interior and `'contained'`). -/
noncomputable def parentParticleInit (parent : Culture) (lang : ℝ) (q : InitRnd) : Particle :=
  let angle := q.angle * (2 * Real.pi)
  let radius := q.radius * (parent.size / 2 - 20)
  { cultureId := parent.id
    homeCultureId := parent.id
    x := Real.cos angle * radius
    y := Real.sin angle * radius
    vx := (q.vx - 0.5) * 0.2
    vy := (q.vy - 0.5) * 0.2
    color := initColor parent.originalHue 65 60
    originalColor := initColor parent.originalHue 65 60
    size := lang * 0.6 + q.sizeJitter * 2
    wavePhase := q.phase * (2 * Real.pi)
    state := PState.contained
    targetCultureId := none
    flowPartner := none
    flowProgress := 0
    baseSpeed := some 0.2
    activationDelay := 0
    activationStartTime := 0
    isBorderParticle := false
    borderEdgeIndex := -1
    borderEdgeT := 0
    borderFloatPhase := 0
    lastSwapTime := 0
    willExchange := none
    exchangeTargetId := none }

/-! ## The particle-level transition system

The events the engine can perform on the particle list, each instantiated
with arbitrary cultures, clocks and random draws. -/

inductive SimStep : List Particle → List Particle → Prop where
  /-- One animation tick (`drawParticles` without the in-loop swap). -/
  | tick (cs : List Culture) (mode : VisualMode) (time now : ℝ)
      (r : ℕ → TickRnd) (ps : List Particle) :
      SimStep ps (tickParticles cs mode time now r ps 0)
  /-- The random border/interior swap the border branch performs: a
  contained border particle trades places with a contained interior
  particle of its current culture. -/
  | swap (ps : List Particle) (i j : ℕ) (c : Culture) (now phase : ℝ)
      (hi : i < ps.length) (hj : j < ps.length) (hij : i ≠ j)
      (hbi : (ps.get ⟨i, hi⟩).isBorderParticle = true)
      (hsi : (ps.get ⟨i, hi⟩).state = PState.contained)
      (hhj : (ps.get ⟨j, hj⟩).homeCultureId = c.id)
      (hsj : (ps.get ⟨j, hj⟩).state = PState.contained)
      (hbj : (ps.get ⟨j, hj⟩).isBorderParticle = false) :
      SimStep ps
        ((ps.set i { ps.get ⟨i, hi⟩ with isBorderParticle := false, lastSwapTime := now }).set j
          { ps.get ⟨j, hj⟩ with
            isBorderParticle := true
            borderEdgeIndex := (ps.get ⟨i, hi⟩).borderEdgeIndex
            borderEdgeT := (ps.get ⟨i, hi⟩).borderEdgeT
            borderFloatPhase := phase
            lastSwapTime := now })
  /-- A focus activation. -/
  | activate (focusedId : ℕ) (connectedIds : List ℕ) (now : ℝ) (r : ActRnd)
      (ps : List Particle) :
      SimStep ps (activateParticleFlow focusedId connectedIds now r ps)
  /-- A flow deactivation. -/
  | deactivate (cs : List Culture) (r : ℕ → ℝ × ℝ) (ps : List Particle) :
      SimStep ps (deactivateParticleFlow cs r ps 0)
  /-- The particle pass of a position randomize (part of the exit cycle). -/
  | randomize (cultureIds : List ℕ) (rv : ℕ → ℝ × ℝ) (ps : List Particle) :
      SimStep ps (randomizeParticles cultureIds rv ps 0)
  /-- A border reset (used both when entering and when exiting focus). -/
  | resetBorders (cs : List Culture) (rb : ℕ → ℕ → InitRnd) (hf : ℕ → ℝ)
      (ps : List Particle) :
      SimStep ps (resetBordersGo rb hf cs 0 ps)
  /-- The aggregation engine seeding a fresh synthetic parent group. -/
  | spawnParent (parent : Culture) (lang : ℝ) (q : ℕ → InitRnd) (n : ℕ)
      (ps : List Particle) :
      SimStep ps (ps ++ (List.range n).map (fun j => parentParticleInit parent lang (q j)))
  /-- The aggregation engine discarding particles (synthetic groups being
  retired). -/
  | discard (f : Particle → Bool) (ps : List Particle) :
      SimStep ps (ps.filter f)

/-- The reachable particle lists: an initialization followed by any number
of engine steps. -/
inductive Reachable : List Particle → Prop where
  | init (cs : List Culture) (ri rb : ℕ → ℕ → InitRnd) :
      Reachable (initGo ri rb cs 0)
  | step {ps ps2 : List Particle} :
      Reachable ps → SimStep ps ps2 → Reachable ps2

/-- Fixed random draws for the concrete activation scenario: every focused
interior particle flows, targets are assigned round-robin, and no reverse
flow happens. -/
def cexRnd : ActRnd :=
  ActRnd.mk (fun _ => true) (fun _ => false) (fun i => i % 3) (fun _ => 0) (fun _ => 0)

/-- An interior particle of culture 100. -/
def cexParticle : Particle :=
  { blankParticle with homeCultureId := 100, cultureId := 100 }

/-- A focused-culture interior pool of 10 particles. -/
def cexPool : List Particle := List.replicate 10 cexParticle

/-- A concrete exchange-target culture for the deactivation scenario. -/
noncomputable def deactTargetCulture : Culture :=
  { blankCulture with id := 7, originalHue := some 200 }

/-- A concrete mid-flight particle with a pending exchange toward
`deactTargetCulture`. -/
def deactParticle : Particle :=
  { blankParticle with
    state := PState.flowing
    willExchange := some true
    exchangeTargetId := some 7
    targetCultureId := some 7 }

/-- The first ingested culture: `processCultures` assigns `id: index`, so
culture ids are 0-based and id 0 always exists. -/
noncomputable def zeroIdCulture : Culture :=
  { blankCulture with id := 0, originalHue := some 40 }

/-- A mid-flight particle with a pending exchange toward culture 0. -/
def zeroTargetParticle : Particle :=
  { blankParticle with
    state := PState.flowing
    willExchange := some true
    exchangeTargetId := some 0
    targetCultureId := some 0 }

/-- The same pending-exchange particle, but marked toward culture 7. -/
def sevenTargetParticle : Particle :=
  { zeroTargetParticle with
    exchangeTargetId := some 7
    targetCultureId := some 7 }

/-- A fixed tick-random bundle for concrete runs. -/
def tickRnd0 : TickRnd := ⟨0, 0, 0, 0, 0, 0, 0, 0, 0, 0, 0⟩

/-- A flowing particle whose target culture id (99) exists in no culture
list used with it. -/
def missTickParticle : Particle :=
  { blankParticle with state := PState.flowing, targetCultureId := some 99 }

/-- A fixed init-random bundle for concrete runs. -/
def initRnd0 : InitRnd := ⟨0, 0, 0, 0, 0, 0, 0, 0, 0, 0⟩

/-- Number of particles whose home culture is `cid`. -/
def countHome (cid : ℕ) (ps : List Particle) : ℕ :=
  ps.countP (fun p => p.homeCultureId == cid)

end Belonging

namespace Belonging

/-! ### Camera theorems -/

/-- C8: after every pan performed while the viewport is measured (and fits
inside the world), the camera offset is clamped into
`[0, worldWidth - viewportWidth] × [0, worldHeight - viewportHeight]`. -/
theorem pan_offset_in_bounds (cam : Camera) (dx dy vw vh : ℚ)
    (hw : vw ≤ WORLD_WIDTH) (hh : vh ≤ WORLD_HEIGHT) :
    0 ≤ (panMove cam dx dy vw vh).x ∧
      (panMove cam dx dy vw vh).x ≤ WORLD_WIDTH - vw ∧
      0 ≤ (panMove cam dx dy vw vh).y ∧
      (panMove cam dx dy vw vh).y ≤ WORLD_HEIGHT - vh := by
  unfold panMove
  refine ⟨le_max_left _ _, ?_, le_max_left _ _, ?_⟩
  · exact max_le (by linarith) (min_le_left _ _)
  · exact max_le (by linarith) (min_le_left _ _)

/-- Witness for `pan_offset_in_bounds` at a concrete pan. -/
theorem pan_offset_in_bounds_witness :
    (800 : ℚ) ≤ WORLD_WIDTH ∧ (600 : ℚ) ≤ WORLD_HEIGHT ∧
      (0 ≤ (panMove ⟨100, 100, 1⟩ (-13000) 40 800 600).x ∧
        (panMove ⟨100, 100, 1⟩ (-13000) 40 800 600).x ≤ WORLD_WIDTH - 800 ∧
        0 ≤ (panMove ⟨100, 100, 1⟩ (-13000) 40 800 600).y ∧
        (panMove ⟨100, 100, 1⟩ (-13000) 40 800 600).y ≤ WORLD_HEIGHT - 600) :=
  ⟨by norm_num [WORLD_WIDTH], by norm_num [WORLD_HEIGHT],
    pan_offset_in_bounds ⟨100, 100, 1⟩ (-13000) 40 800 600
      (by norm_num [WORLD_WIDTH]) (by norm_num [WORLD_HEIGHT])⟩

/-- C9 counterexample: the spec's claimed mapping
`world = screen / zoom + offset` disagrees with the implemented
`screenToWorld` already at zoom 2, offset (100, 0), screen point (0, 0):
the code yields world‑x 50, the claimed formula yields 100. -/
theorem screenToWorld_ne_spec_formula :
    screenToWorld ⟨100, 0, 2⟩ 0 0 ≠ specScreenToWorld ⟨100, 0, 2⟩ 0 0 := by
  unfold screenToWorld specScreenToWorld
  simp only [Prod.mk.injEq, not_and]
  intro h
  norm_num at h

/-- C9 (amended): for every screen point, camera offset and non-zero zoom,
`screenToWorld` and the render-loop camera transform form the affine pair
`world = (screen + offset) / zoom` and its inverse
`screen = world * zoom - offset`: the two maps are mutually inverse. -/
theorem screenToWorld_worldToScreen_inverse (cam : Camera) (sx sy wx wy : ℚ)
    (hz : cam.zoom ≠ 0) :
    worldToScreen cam (screenToWorld cam sx sy).1 (screenToWorld cam sx sy).2 =
        (sx, sy) ∧
      screenToWorld cam (worldToScreen cam wx wy).1 (worldToScreen cam wx wy).2 =
        (wx, wy) := by
  unfold screenToWorld worldToScreen
  constructor
  · simp only [Prod.mk.injEq]
    constructor <;> field_simp
  · simp only [Prod.mk.injEq]
    constructor <;> field_simp

/-- Witness for `screenToWorld_worldToScreen_inverse` at a concrete camera. -/
theorem screenToWorld_worldToScreen_inverse_witness :
    (Camera.mk 100 40 2).zoom ≠ 0 ∧
      (worldToScreen ⟨100, 40, 2⟩ (screenToWorld ⟨100, 40, 2⟩ 7 9).1
          (screenToWorld ⟨100, 40, 2⟩ 7 9).2 = (7, 9) ∧
        screenToWorld ⟨100, 40, 2⟩ (worldToScreen ⟨100, 40, 2⟩ 3 5).1
          (worldToScreen ⟨100, 40, 2⟩ 3 5).2 = (3, 5)) :=
  ⟨by norm_num, screenToWorld_worldToScreen_inverse ⟨100, 40, 2⟩ 7 9 3 5 (by norm_num)⟩

/-- C10: a zoom step keeps the zoom scalar inside `[0.1, 5]`, recomputes the
offset solely so that the world point at the viewport center stays fixed,
and never re-clamps the offset — concretely, zooming out from the top-left
corner at zoom 1 leaves the camera offset negative, outside the
`[0, worldWidth - viewportWidth]` band that panning maintains. -/
theorem zoom_step_bounds_and_center_fixed (cam : Camera) (vw vh : ℚ)
    (hlo : 0.1 ≤ cam.zoom) (hhi : cam.zoom ≤ 5) :
    ((0.1 ≤ (handleZoomIn cam vw vh).zoom ∧ (handleZoomIn cam vw vh).zoom ≤ 5) ∧
      (0.1 ≤ (handleZoomOut cam vw vh).zoom ∧ (handleZoomOut cam vw vh).zoom ≤ 5)) ∧
    ((vw / 2 + (handleZoomIn cam vw vh).x) / (handleZoomIn cam vw vh).zoom =
        (vw / 2 + cam.x) / cam.zoom ∧
      (vh / 2 + (handleZoomIn cam vw vh).y) / (handleZoomIn cam vw vh).zoom =
        (vh / 2 + cam.y) / cam.zoom ∧
      (vw / 2 + (handleZoomOut cam vw vh).x) / (handleZoomOut cam vw vh).zoom =
        (vw / 2 + cam.x) / cam.zoom ∧
      (vh / 2 + (handleZoomOut cam vw vh).y) / (handleZoomOut cam vw vh).zoom =
        (vh / 2 + cam.y) / cam.zoom) ∧
    ((handleZoomOut ⟨0, 0, 1⟩ 800 600).x < 0 ∧
      ¬ (0 ≤ (handleZoomOut ⟨0, 0, 1⟩ 800 600).x ∧
          (handleZoomOut ⟨0, 0, 1⟩ 800 600).x ≤ WORLD_WIDTH - 800)) := by
  have hz : cam.zoom ≠ 0 := by positivity
  refine ⟨⟨⟨?_, ?_⟩, ⟨?_, ?_⟩⟩, ⟨?_, ?_, ?_, ?_⟩, ?_, ?_⟩
  · unfold handleZoomIn
    simp only [le_min_iff]
    constructor <;> linarith
  · exact min_le_left _ _
  · exact le_max_left _ _
  · unfold handleZoomOut
    exact max_le (by norm_num) (by linarith)
  case refine_9 =>
    unfold handleZoomOut
    rw [show ((0.1 : ℚ) ⊔ 1 * 0.8) = 1 * 0.8 from max_eq_right (by norm_num)]
    norm_num
  case refine_10 =>
    unfold handleZoomOut
    rw [show ((0.1 : ℚ) ⊔ 1 * 0.8) = 1 * 0.8 from max_eq_right (by norm_num)]
    norm_num
  all_goals first
    | (unfold handleZoomIn
       have hz2 : min (5 : ℚ) (cam.zoom * 1.2) ≠ 0 := by
         have : (0.1 : ℚ) ≤ min 5 (cam.zoom * 1.2) := by
           simp only [le_min_iff]; constructor <;> linarith
         positivity
       field_simp
       ring)
    | (unfold handleZoomOut
       have hz2 : max (0.1 : ℚ) (cam.zoom * 0.8) ≠ 0 := by
         have : (0.1 : ℚ) ≤ max 0.1 (cam.zoom * 0.8) := le_max_left _ _
         positivity
       field_simp
       ring)

/-- Witness for `zoom_step_bounds_and_center_fixed` at a concrete camera. -/
theorem zoom_step_bounds_and_center_fixed_witness :
    ((0.1 : ℚ) ≤ (Camera.mk 40 60 1).zoom ∧ (Camera.mk 40 60 1).zoom ≤ 5) ∧
      (0.1 ≤ (handleZoomIn ⟨40, 60, 1⟩ 800 600).zoom ∧
        (handleZoomIn ⟨40, 60, 1⟩ 800 600).zoom ≤ 5) := by
  refine ⟨⟨by norm_num, by norm_num⟩, ?_⟩
  exact (zoom_step_bounds_and_center_fixed ⟨40, 60, 1⟩ 800 600
    (by norm_num) (by norm_num)).1.1

/-! ### Side-count theorem (C5) -/

/-- C5: every culture produced by the ingestion side-count pass has
`sides = max 3 connectionCount`; in particular sides is never below 3. -/
theorem processCultures_sides_eq (cs : List Culture) (i : ℕ) (h : i < cs.length) :
    ((computeSides cs).get ⟨i, by simpa [computeSides] using h⟩).sides =
        max 3 (connectedCount cs (cs.get ⟨i, h⟩)) ∧
      3 ≤ ((computeSides cs).get ⟨i, by simpa [computeSides] using h⟩).sides := by
  unfold computeSides
  simp only [List.get_eq_getElem, List.getElem_map]
  exact ⟨trivial, le_max_left _ _⟩

/-- Witness for `processCultures_sides_eq` on a concrete two-culture dataset
with one kinship link. -/
theorem processCultures_sides_eq_witness :
    0 < ([{ blankCulture with id := 1, name := "alpha", kinships := ["beta"] },
          { blankCulture with id := 2, name := "beta" }] : List Culture).length ∧
      (((computeSides [{ blankCulture with id := 1, name := "alpha", kinships := ["beta"] },
            { blankCulture with id := 2, name := "beta" }]).get ⟨0, by simp [computeSides]⟩).sides =
          max 3 (connectedCount
            [{ blankCulture with id := 1, name := "alpha", kinships := ["beta"] },
             { blankCulture with id := 2, name := "beta" }]
            (([{ blankCulture with id := 1, name := "alpha", kinships := ["beta"] },
               { blankCulture with id := 2, name := "beta" }] : List Culture).get
              ⟨0, by norm_num⟩)) ∧
        3 ≤ ((computeSides [{ blankCulture with id := 1, name := "alpha", kinships := ["beta"] },
            { blankCulture with id := 2, name := "beta" }]).get ⟨0, by simp [computeSides]⟩).sides) :=
  ⟨by norm_num,
    processCultures_sides_eq
      [{ blankCulture with id := 1, name := "alpha", kinships := ["beta"] },
       { blankCulture with id := 2, name := "beta" }] 0 (by norm_num)⟩

/-! ### Boundary enforcement theorems (C6) -/

/-- The edge step touches the position only in the hard-clamp branch:
when the incoming distance does not exceed the hard boundary the position is
unchanged. -/
theorem boundaryEdgeStep_pos_of_not_gt (hB θ : ℝ) (p : Particle)
    (h : ¬ p.x * Real.cos θ + p.y * Real.sin θ > hB) :
    (boundaryEdgeStep hB θ p).x = p.x ∧ (boundaryEdgeStep hB θ p).y = p.y := by
  unfold boundaryEdgeStep
  simp only [if_neg h]
  split <;> simp

/-- In the hard-clamp branch the position is pulled back along the normal by
the overflow. -/
theorem boundaryEdgeStep_pos_of_gt (hB θ : ℝ) (p : Particle)
    (h : p.x * Real.cos θ + p.y * Real.sin θ > hB) :
    (boundaryEdgeStep hB θ p).x =
        p.x - Real.cos θ * (p.x * Real.cos θ + p.y * Real.sin θ - hB) ∧
      (boundaryEdgeStep hB θ p).y =
        p.y - Real.sin θ * (p.x * Real.cos θ + p.y * Real.sin θ - hB) := by
  unfold boundaryEdgeStep
  simp only [if_pos h]
  split
  · split <;> simp
  · split <;> simp

/-- After an edge step, the signed distance along that edge's own normal is
at most the hard boundary. -/
theorem distAlong_boundaryEdgeStep_le (hB θ : ℝ) (p : Particle) :
    distAlong θ (boundaryEdgeStep hB θ p) ≤ hB := by
  by_cases h : p.x * Real.cos θ + p.y * Real.sin θ > hB
  · obtain ⟨hx, hy⟩ := boundaryEdgeStep_pos_of_gt hB θ p h
    unfold distAlong
    rw [hx, hy]
    have hsc : Real.cos θ ^ 2 + Real.sin θ ^ 2 = 1 := by
      have := Real.sin_sq_add_cos_sq θ
      linarith
    nlinarith [hsc]
  · obtain ⟨hx, hy⟩ := boundaryEdgeStep_pos_of_not_gt hB θ p h
    unfold distAlong
    rw [hx, hy]
    linarith [not_lt.mp h]

/-- C6 (amended): each edge guarantees its own bound at the moment it is
processed; in particular, after `enforcePolygonBoundary` the particle's
signed distance along the *last-processed* edge's outward normal is at most
`apothem - hardMargin` (with `hardMargin = 5` and zero tolerance).  The
all-edges bound claimed by the spec fails, because an edge processed later
can push the particle back out across an edge processed earlier — see
`enforce_edge_revisit_counterexample`. -/
theorem enforce_last_edge_le (c : Culture) (p : Particle) (h : 0 < c.sides) :
    distAlong (normalAngle c (c.sides - 1)) (enforcePolygonBoundary p c) ≤
      apothemOf c - 5 := by
  obtain ⟨n, hn⟩ : ∃ n, c.sides = n + 1 := ⟨c.sides - 1, (Nat.succ_pred_eq_of_pos h).symm⟩
  unfold enforcePolygonBoundary
  rw [hn, List.range_succ, List.foldl_append]
  simp only [List.foldl_cons, List.foldl_nil, Nat.add_sub_cancel]
  exact distAlong_boundaryEdgeStep_le _ _ _

/-- Witness for `enforce_last_edge_le` on a concrete triangle. -/
theorem enforce_last_edge_le_witness :
    0 < triCulture.sides ∧
      distAlong (normalAngle triCulture (triCulture.sides - 1))
          (enforcePolygonBoundary farParticle triCulture) ≤
        apothemOf triCulture - 5 :=
  ⟨by norm_num [triCulture, blankCulture],
    enforce_last_edge_le triCulture farParticle (by norm_num [triCulture, blankCulture])⟩

/-- C6 counterexample: on a triangle of radius 100 (apothem 50, hard
boundary 45), a contained particle's final distance along edge 0's normal
exceeds `apothem - hardMargin` by more than 100: the clamp performed by
edge 1 pushes the particle far back out across edge 0, and no later edge
corrects it.  So the claimed bound `≤ apothem - hardMargin + ε` fails even
for the generous tolerance `ε = 100`. -/
theorem enforce_edge_revisit_counterexample :
    distAlong (normalAngle triCulture 0) (enforcePolygonBoundary farParticle triCulture) >
      apothemOf triCulture - 5 + 100 := by
  have hs0 : (0:ℝ) ≤ Real.sqrt 3 := Real.sqrt_nonneg 3
  have hs : Real.sqrt 3 ^ 2 = 3 := Real.sq_sqrt (by norm_num)
  have hs1 : 1 < Real.sqrt 3 := by nlinarith
  have ha : apothemOf triCulture = 50 := by
    show (200 * 1 / 2 : ℝ) * Real.cos (Real.pi / ((3:ℕ) : ℝ)) = 50
    rw [show ((3:ℕ) : ℝ) = 3 by norm_num, Real.cos_pi_div_three]
    norm_num
  have hθ0 : normalAngle triCulture 0 = 0 := by
    show -(Real.pi / 3) + 0 + 2 * Real.pi / ((3:ℕ) : ℝ) * (((0:ℕ) : ℝ) + 0.5) = 0
    push_cast
    ring
  have hθ1 : normalAngle triCulture 1 = Real.pi - Real.pi / 3 := by
    show -(Real.pi / 3) + 0 + 2 * Real.pi / ((3:ℕ) : ℝ) * (((1:ℕ) : ℝ) + 0.5) =
      Real.pi - Real.pi / 3
    push_cast
    ring
  have hθ2 : normalAngle triCulture 2 = Real.pi / 3 + Real.pi := by
    show -(Real.pi / 3) + 0 + 2 * Real.pi / ((3:ℕ) : ℝ) * (((2:ℕ) : ℝ) + 0.5) =
      Real.pi / 3 + Real.pi
    push_cast
    ring
  have hc1 : Real.cos (normalAngle triCulture 1) = -(1/2) := by
    rw [hθ1, Real.cos_pi_sub, Real.cos_pi_div_three]
  have hsin1 : Real.sin (normalAngle triCulture 1) = Real.sqrt 3 / 2 := by
    rw [hθ1, Real.sin_pi_sub, Real.sin_pi_div_three]
  have hc2 : Real.cos (normalAngle triCulture 2) = -(1/2) := by
    rw [hθ2, Real.cos_add_pi, Real.cos_pi_div_three]
  have hsin2 : Real.sin (normalAngle triCulture 2) = -(Real.sqrt 3 / 2) := by
    rw [hθ2, Real.sin_add_pi, Real.sin_pi_div_three]
  have hB : apothemOf triCulture - 5 = 45 := by rw [ha]; norm_num
  have hrange : List.range triCulture.sides = [0, 1, 2] := rfl
  unfold enforcePolygonBoundary
  rw [hrange, hB]
  simp only [List.foldl_cons, List.foldl_nil]
  set q0 := boundaryEdgeStep 45 (normalAngle triCulture 0) farParticle with hq0
  set q1 := boundaryEdgeStep 45 (normalAngle triCulture 1) q0 with hq1
  set q2 := boundaryEdgeStep 45 (normalAngle triCulture 2) q1 with hq2
  have hfx : farParticle.x = 45 := rfl
  have hfy : farParticle.y = 1000 := rfl
  have h0 : ¬ farParticle.x * Real.cos (normalAngle triCulture 0) +
      farParticle.y * Real.sin (normalAngle triCulture 0) > 45 := by
    rw [hθ0, Real.cos_zero, Real.sin_zero, hfx, hfy]
    norm_num
  obtain ⟨hx0, hy0⟩ := boundaryEdgeStep_pos_of_not_gt 45 (normalAngle triCulture 0)
    farParticle h0
  rw [← hq0, hfx] at hx0
  rw [← hq0, hfy] at hy0
  have h1 : q0.x * Real.cos (normalAngle triCulture 1) +
      q0.y * Real.sin (normalAngle triCulture 1) > 45 := by
    rw [hx0, hy0, hc1, hsin1]
    nlinarith
  obtain ⟨hx1, hy1⟩ := boundaryEdgeStep_pos_of_gt 45 (normalAngle triCulture 1) q0 h1
  rw [← hq1] at hx1 hy1
  have hx1v : q1.x = 11.25 + 250 * Real.sqrt 3 := by
    rw [hx1, hx0, hy0, hc1, hsin1]
    ring
  have hy1v : q1.y = 250 + 33.75 * Real.sqrt 3 := by
    rw [hy1, hx0, hy0, hc1, hsin1]
    linear_combination (-(250:ℝ)) * hs
  have h2 : ¬ q1.x * Real.cos (normalAngle triCulture 2) +
      q1.y * Real.sin (normalAngle triCulture 2) > 45 := by
    rw [hx1v, hy1v, hc2, hsin2]
    simp only [not_lt]
    nlinarith
  obtain ⟨hx2, hy2⟩ := boundaryEdgeStep_pos_of_not_gt 45 (normalAngle triCulture 2) q1 h2
  rw [← hq2] at hx2 hy2
  unfold distAlong
  rw [hθ0, Real.cos_zero, Real.sin_zero, hx2, hx1v]
  nlinarith

/-! ### Exchange allocation theorems (C1) -/

theorem list_getD_mem {l : List ℕ} {n : ℕ} (d : ℕ) (h : n < l.length) :
    l.getD n d ∈ l := by
  induction l generalizing n with
  | nil => simp at h
  | cons a t ih =>
    cases n with
    | zero => simp
    | succ m =>
      simp only [List.getD_cons_succ]
      exact List.mem_cons_of_mem _ (ih (by simpa using h))

theorem list_sum_map_add (l : List ℕ) (f g : ℕ → ℕ) :
    (l.map (fun x => f x + g x)).sum = (l.map f).sum + (l.map g).sum := by
  induction l with
  | nil => simp
  | cons a t ih =>
    simp only [List.map_cons, List.sum_cons, ih]
    omega

theorem list_sum_indicator_count (ids : List ℕ) (a : ℕ) :
    (ids.map (fun t => if a = t then 1 else 0)).sum = ids.count a := by
  induction ids with
  | nil => simp
  | cons b t ih =>
    simp only [List.map_cons, List.sum_cons, ih, List.count_cons]
    by_cases h : a = b
    · simp only [h, if_pos, beq_self_eq_true]
      omega
    · simp [h, Ne.symm h]

/-- The marking predicate is false on any particle that is not marked. -/
theorem markedPred_false_of_not_exchange {p : Particle}
    (h : p.willExchange ≠ some true) (f t : ℕ) :
    (p.homeCultureId == f && p.willExchange == some true &&
      p.targetCultureId == some t) = false := by
  have : (p.willExchange == some true) = false := beq_eq_false_iff_ne.mpr h
  simp [this]

theorem markedPredT_false_of_not_exchange {p : Particle}
    (h : p.willExchange ≠ some true) (f : ℕ) :
    (p.homeCultureId == f && p.willExchange == some true) = false := by
  have : (p.willExchange == some true) = false := beq_eq_false_iff_ne.mpr h
  simp [this]

/-- Core per-target bound: along the marking pass, the number of particles
marked for target `t` plus the marks already handed out never exceeds the
quota `perKinship`. -/
theorem activateGo_marked_le (focusedId : ℕ) (connectedIds : List ℕ)
    (perKinship : ℕ) (revCount : ℕ → ℕ) (now : ℝ) (r : ActRnd) (t : ℕ)
    (hf : focusedId ∉ connectedIds) :
    ∀ (l : List Particle) (i : ℕ) (cnt used : ℕ → ℕ),
      (∀ p ∈ l, p.willExchange ≠ some true) → cnt t ≤ perKinship →
      markedForTarget focusedId t
          (activateGo focusedId connectedIds perKinship revCount now r l i cnt used) +
        cnt t ≤ perKinship := by
  intro l
  induction l with
  | nil =>
    intro i cnt used _ hct
    simpa [activateGo, markedForTarget] using hct
  | cons p rest ih =>
    intro i cnt used hcl hct
    have hclr : ∀ q ∈ rest, q.willExchange ≠ some true := fun q hq =>
      hcl q (List.mem_cons_of_mem _ hq)
    have hclp : p.willExchange ≠ some true := hcl p (List.mem_cons_self p rest)
    unfold activateGo
    by_cases hb : p.isBorderParticle
    · simp only [if_pos hb, markedForTarget, List.countP_cons,
        markedPred_false_of_not_exchange hclp, Bool.false_eq_true, if_neg,
        not_false_eq_true, add_zero]
      exact ih (i + 1) cnt used hclr hct
    · simp only [if_neg hb]
      by_cases hfw : p.homeCultureId = focusedId ∧ r.flows i
      · simp only [if_pos hfw]
        set targetId := connectedIds.getD (r.pick i) 0 with htid
        by_cases hw : cnt targetId < perKinship
        · have hwe : (decide (cnt targetId < perKinship)) = true := decide_eq_true hw
          by_cases hteq : targetId = t
          · subst hteq
            have harg := ih (i + 1)
              (Function.update cnt targetId (cnt targetId + 1)) used hclr
              (by rw [Function.update_same]; omega)
            simp only [markedForTarget, List.countP_cons] at harg ⊢
            simp only [hwe, if_pos, Function.update_same, hfw.1,
              beq_self_eq_true, Bool.true_and, Bool.and_true,
              Bool.and_self] at harg ⊢
            omega
          · have hts : t ≠ targetId := Ne.symm hteq
            have harg := ih (i + 1)
              (Function.update cnt targetId (cnt targetId + 1)) used hclr
              (by rw [Function.update_noteq hts]; exact hct)
            simp only [markedForTarget, List.countP_cons] at harg ⊢
            have hne : ((some targetId == some t) : Bool) = false := by
              simp [hteq]
            simp only [hwe, if_pos, Function.update_noteq hts, hne,
              Bool.and_false, Bool.false_eq_true, if_neg, not_false_eq_true,
              add_zero] at harg ⊢
            omega
        · have hwe : (decide (cnt targetId < perKinship)) = false :=
            decide_eq_false hw
          have harg := ih (i + 1) cnt used hclr hct
          simp only [markedForTarget, List.countP_cons] at harg ⊢
          have hfalse : ((some false == some true) : Bool) = false := by decide
          simp only [hwe, Bool.false_eq_true, if_neg, not_false_eq_true,
            hfalse, Bool.and_false, Bool.false_and, add_zero]
          exact harg
      · simp only [if_neg hfw]
        by_cases hrv : p.homeCultureId ∈ connectedIds ∧ r.revFlows i
        · simp only [if_pos hrv]
          have hhm : p.homeCultureId ≠ focusedId := by
            intro heq
            exact hf (heq ▸ hrv.1)
          have hhb : (p.homeCultureId == focusedId) = false :=
            beq_eq_false_iff_ne.mpr hhm
          have harg := ih (i + 1) cnt
            (if (decide (used p.homeCultureId < revCount p.homeCultureId) : Bool) = true
              then Function.update used p.homeCultureId (used p.homeCultureId + 1)
              else used) hclr hct
          simp only [markedForTarget, List.countP_cons] at harg ⊢
          simp only [hhb, Bool.false_and, Bool.false_eq_true, if_neg,
            not_false_eq_true, add_zero]
          exact harg
        · simp only [if_neg hrv, markedForTarget, List.countP_cons,
            markedPred_false_of_not_exchange hclp, Bool.false_eq_true, if_neg,
            not_false_eq_true, add_zero]
          exact ih (i + 1) cnt used hclr hct

/-- Every particle marked by the pass has its target among the connected
culture ids. -/
theorem activateGo_marked_target_mem (focusedId : ℕ) (connectedIds : List ℕ)
    (perKinship : ℕ) (revCount : ℕ → ℕ) (now : ℝ) (r : ActRnd)
    (hf : focusedId ∉ connectedIds) (hpick : ∀ i, r.pick i < connectedIds.length) :
    ∀ (l : List Particle) (i : ℕ) (cnt used : ℕ → ℕ),
      (∀ p ∈ l, p.willExchange ≠ some true) →
      ∀ q ∈ activateGo focusedId connectedIds perKinship revCount now r l i cnt used,
        (q.homeCultureId == focusedId && q.willExchange == some true) = true →
        ∃ t ∈ connectedIds, q.targetCultureId = some t := by
  intro l
  induction l with
  | nil =>
    intro i cnt used _ q hq
    simp [activateGo] at hq
  | cons p rest ih =>
    intro i cnt used hcl q hq hpred
    have hclr : ∀ p2 ∈ rest, p2.willExchange ≠ some true := fun p2 h2 =>
      hcl p2 (List.mem_cons_of_mem _ h2)
    have hclp : p.willExchange ≠ some true := hcl p (List.mem_cons_self p rest)
    unfold activateGo at hq
    by_cases hb : p.isBorderParticle
    · rw [if_pos hb] at hq
      rcases List.mem_cons.mp hq with hq1 | hq2
      · subst hq1
        rw [markedPredT_false_of_not_exchange hclp] at hpred
        exact absurd hpred (by simp)
      · exact ih (i + 1) cnt used hclr q hq2 hpred
    · rw [if_neg hb] at hq
      by_cases hfw : p.homeCultureId = focusedId ∧ r.flows i
      · rw [if_pos hfw] at hq
        rcases List.mem_cons.mp hq with hq1 | hq2
        · subst hq1
          refine ⟨connectedIds.getD (r.pick i) 0, list_getD_mem 0 (hpick i), rfl⟩
        · exact ih (i + 1) _ used hclr q hq2 hpred
      · rw [if_neg hfw] at hq
        by_cases hrv : p.homeCultureId ∈ connectedIds ∧ r.revFlows i
        · rw [if_pos hrv] at hq
          rcases List.mem_cons.mp hq with hq1 | hq2
          · subst hq1
            have hhm : p.homeCultureId ≠ focusedId := by
              intro heq
              exact hf (heq ▸ hrv.1)
            have hhb : (p.homeCultureId == focusedId) = false :=
              beq_eq_false_iff_ne.mpr hhm
            simp only [hhb, Bool.false_and] at hpred
            exact absurd hpred (by simp)
          · exact ih (i + 1) cnt _ hclr q hq2 hpred
        · rw [if_neg hrv] at hq
          rcases List.mem_cons.mp hq with hq1 | hq2
          · subst hq1
            rw [markedPredT_false_of_not_exchange hclp] at hpred
            exact absurd hpred (by simp)
          · exact ih (i + 1) cnt used hclr q hq2 hpred

/-- Decomposition of the total marked count over the (duplicate-free) target
list, valid whenever every marked particle's target is in the list. -/
theorem markedTotal_eq_sum_markedForTarget (f : ℕ) (ids : List ℕ)
    (hnd : ids.Nodup) :
    ∀ (l : List Particle),
      (∀ q ∈ l, (q.homeCultureId == f && q.willExchange == some true) = true →
        ∃ t ∈ ids, q.targetCultureId = some t) →
      markedTotal f l = (ids.map (fun t => markedForTarget f t l)).sum := by
  intro l
  induction l with
  | nil =>
    intro _
    simp [markedTotal, markedForTarget]
  | cons q l ih =>
    intro hmem
    have hmeml : ∀ q2 ∈ l, (q2.homeCultureId == f && q2.willExchange == some true) = true →
        ∃ t ∈ ids, q2.targetCultureId = some t := fun q2 h2 => hmem q2 (List.mem_cons_of_mem _ h2)
    by_cases hq : (q.homeCultureId == f && q.willExchange == some true) = true
    · obtain ⟨tstar, htmem, htgt⟩ := hmem q (List.mem_cons_self q l) hq
      have hsum : (ids.map (fun t => markedForTarget f t (q :: l))).sum =
          (ids.map (fun t => markedForTarget f t l + if tstar = t then 1 else 0)).sum := by
        congr 1
        refine List.map_congr_left (fun t _ => ?_)
        simp only [markedForTarget, List.countP_cons, hq, htgt, Bool.true_and]
        by_cases hts : tstar = t
        · simp [hts]
        · have : ((some tstar == some t) : Bool) = false := by simp [hts]
          simp [this, hts]
      rw [hsum, list_sum_map_add, list_sum_indicator_count ids tstar]
      rw [List.count_eq_one_of_mem hnd htmem]
      have hI := ih hmeml
      simp only [markedTotal] at hI
      simp only [markedTotal, List.countP_cons, hq, if_pos]
      omega
    · have hqf : (q.homeCultureId == f && q.willExchange == some true) = false :=
        Bool.eq_false_iff.mpr hq
      have hsum : (ids.map (fun t => markedForTarget f t (q :: l))).sum =
          (ids.map (fun t => markedForTarget f t l)).sum := by
        congr 1
        refine List.map_congr_left (fun t _ => ?_)
        simp only [markedForTarget, List.countP_cons, hqf, Bool.false_and,
          Bool.false_eq_true, if_neg, not_false_eq_true, add_zero]
      rw [hsum]
      simp only [markedTotal, List.countP_cons, hqf, Bool.false_eq_true, if_neg,
        not_false_eq_true, add_zero]
      exact ih hmeml

/-- C1 counterexample: with `N = 3` connected cultures and a focused
interior pool of `P = 10` under ratio `r = 0.20`, the claimed total
`floor(P*r) = 2` is *not* reached: `perKinship = floor(2/3) = 0`, so zero
particles are marked even though every interior particle flows — the
remainder of `floor(P*r)` modulo `N` is never allocated. -/
theorem activate_exact_total_counterexample :
    markedTotal 100 (activateParticleFlow 100 [1, 2, 3] 0 cexRnd cexPool) = 0 ∧
      Nat.floor ((interiorCountOf 100 cexPool : ℚ) * 0.20) = 2 ∧
      markedTotal 100 (activateParticleFlow 100 [1, 2, 3] 0 cexRnd cexPool) ≠
        Nat.floor ((interiorCountOf 100 cexPool : ℚ) * 0.20) := by
  have h1 : interiorCountOf 100 cexPool = 10 := by decide
  have h2 : Nat.floor ((interiorCountOf 100 cexPool : ℚ) * 0.20) = 2 := by
    rw [h1]
    norm_num
  have hkey : activateParticleFlow 100 [1, 2, 3] 0 cexRnd cexPool =
      activateGo 100 [1, 2, 3] 0
        (fun cid => Nat.floor ((interiorCountOf cid cexPool : ℚ) *
          (0.20 / (([1, 2, 3] : List ℕ).length : ℚ))))
        0 cexRnd cexPool 0 (fun _ => 0) (fun _ => 0) := by
    unfold activateParticleFlow
    rw [if_neg (by decide)]
    rw [h2]
    norm_num
  have h0 : markedTotal 100
      (activateGo 100 [1, 2, 3] 0
        (fun cid => Nat.floor ((interiorCountOf cid cexPool : ℚ) *
          (0.20 / (([1, 2, 3] : List ℕ).length : ℚ))))
        0 cexRnd cexPool 0 (fun _ => 0) (fun _ => 0)) = 0 := by decide
  refine ⟨?_, h2, ?_⟩
  · rw [hkey]
    exact h0
  · rw [hkey, h0, h2]
    norm_num

/-- C1 (amended): the marking pass hands out at most
`perKinship = floor(floor(P*0.20)/N)` exchange marks per connected culture
(each target's quota is capped, never topped up from the remainder), so at
most `N * perKinship ≤ floor(P*0.20)` particles in total are marked; the
exact total `floor(P*0.20)` of the claim is not guaranteed. -/
theorem activate_exchange_allocation (focusedId : ℕ) (connectedIds : List ℕ)
    (now : ℝ) (r : ActRnd) (ps : List Particle)
    (hne : connectedIds ≠ []) (hnd : connectedIds.Nodup)
    (hf : focusedId ∉ connectedIds)
    (hpick : ∀ i, r.pick i < connectedIds.length)
    (hclean : ∀ p ∈ ps, p.willExchange ≠ some true) :
    (∀ t ∈ connectedIds,
        markedForTarget focusedId t (activateParticleFlow focusedId connectedIds now r ps) ≤
          Nat.floor ((interiorCountOf focusedId ps : ℚ) * 0.20) / connectedIds.length) ∧
      markedTotal focusedId (activateParticleFlow focusedId connectedIds now r ps) ≤
        connectedIds.length *
          (Nat.floor ((interiorCountOf focusedId ps : ℚ) * 0.20) / connectedIds.length) ∧
      connectedIds.length *
          (Nat.floor ((interiorCountOf focusedId ps : ℚ) * 0.20) / connectedIds.length) ≤
        Nat.floor ((interiorCountOf focusedId ps : ℚ) * 0.20) := by
  unfold activateParticleFlow
  rw [if_neg hne]
  refine ⟨?_, ?_, ?_⟩
  · intro t _
    have h := activateGo_marked_le focusedId connectedIds
      (Nat.floor ((interiorCountOf focusedId ps : ℚ) * 0.20) / connectedIds.length)
      (fun cid => Nat.floor ((interiorCountOf cid ps : ℚ) * (0.20 / connectedIds.length)))
      now r t hf ps 0 (fun _ => 0) (fun _ => 0) hclean (Nat.zero_le _)
    simpa using h
  · have hmem := activateGo_marked_target_mem focusedId connectedIds
      (Nat.floor ((interiorCountOf focusedId ps : ℚ) * 0.20) / connectedIds.length)
      (fun cid => Nat.floor ((interiorCountOf cid ps : ℚ) * (0.20 / connectedIds.length)))
      now r hf hpick ps 0 (fun _ => 0) (fun _ => 0) hclean
    rw [markedTotal_eq_sum_markedForTarget focusedId connectedIds hnd _ hmem]
    have hle : ∀ t ∈ connectedIds,
        markedForTarget focusedId t
            (activateGo focusedId connectedIds
              (Nat.floor ((interiorCountOf focusedId ps : ℚ) * 0.20) / connectedIds.length)
              (fun cid => Nat.floor ((interiorCountOf cid ps : ℚ) * (0.20 / connectedIds.length)))
              now r ps 0 (fun _ => 0) (fun _ => 0)) ≤
          Nat.floor ((interiorCountOf focusedId ps : ℚ) * 0.20) / connectedIds.length := by
      intro t _
      have h := activateGo_marked_le focusedId connectedIds
        (Nat.floor ((interiorCountOf focusedId ps : ℚ) * 0.20) / connectedIds.length)
        (fun cid => Nat.floor ((interiorCountOf cid ps : ℚ) * (0.20 / connectedIds.length)))
        now r t hf ps 0 (fun _ => 0) (fun _ => 0) hclean (Nat.zero_le _)
      simpa using h
    calc (connectedIds.map (fun t =>
            markedForTarget focusedId t
              (activateGo focusedId connectedIds
                (Nat.floor ((interiorCountOf focusedId ps : ℚ) * 0.20) / connectedIds.length)
                (fun cid => Nat.floor ((interiorCountOf cid ps : ℚ) * (0.20 / connectedIds.length)))
                now r ps 0 (fun _ => 0) (fun _ => 0)))).sum
        ≤ (connectedIds.map (fun _ =>
            Nat.floor ((interiorCountOf focusedId ps : ℚ) * 0.20) / connectedIds.length)).sum :=
          List.sum_le_sum hle
      _ = connectedIds.length *
            (Nat.floor ((interiorCountOf focusedId ps : ℚ) * 0.20) / connectedIds.length) := by
          simp [List.map_const', List.sum_replicate, smul_eq_mul]
  · rw [mul_comm]
    exact Nat.div_mul_le_self _ _

/-- Witness for `activate_exchange_allocation` at the concrete scenario of
the counterexample. -/
theorem activate_exchange_allocation_witness :
    (([1, 2, 3] : List ℕ) ≠ [] ∧ ([1, 2, 3] : List ℕ).Nodup ∧
      (100 : ℕ) ∉ ([1, 2, 3] : List ℕ) ∧
      (∀ i, cexRnd.pick i < ([1, 2, 3] : List ℕ).length) ∧
      (∀ p ∈ cexPool, p.willExchange ≠ some true)) ∧
    ((∀ t ∈ ([1, 2, 3] : List ℕ),
        markedForTarget 100 t (activateParticleFlow 100 [1, 2, 3] 0 cexRnd cexPool) ≤
          Nat.floor ((interiorCountOf 100 cexPool : ℚ) * 0.20) / ([1, 2, 3] : List ℕ).length) ∧
      markedTotal 100 (activateParticleFlow 100 [1, 2, 3] 0 cexRnd cexPool) ≤
        ([1, 2, 3] : List ℕ).length *
          (Nat.floor ((interiorCountOf 100 cexPool : ℚ) * 0.20) / ([1, 2, 3] : List ℕ).length) ∧
      ([1, 2, 3] : List ℕ).length *
          (Nat.floor ((interiorCountOf 100 cexPool : ℚ) * 0.20) / ([1, 2, 3] : List ℕ).length) ≤
        Nat.floor ((interiorCountOf 100 cexPool : ℚ) * 0.20)) :=
  ⟨⟨by decide, by decide, by decide, fun i => Nat.mod_lt i (by norm_num), by decide⟩,
    activate_exchange_allocation 100 [1, 2, 3] 0 cexRnd cexPool
      (by decide) (by decide) (by decide)
      (fun i => Nat.mod_lt i (by norm_num)) (by decide)⟩

/-! ### Flow deactivation theorems (C3) -/

/-- The color a non-border particle ends up with after `deactivateOne`:
the pending-exchange hue when the truthiness-guarded condition fires, its
own color otherwise. -/
theorem deactivateOne_color_eq (cs : List Culture) (sat light : ℝ) (p : Particle)
    (hb : p.isBorderParticle = false) :
    (deactivateOne cs sat light p).color =
      (if p.willExchange = some true ∧ jsTruthy (exchangeTargetOf p) then
        match cs.find? (fun c => exchangeTargetOf p == some c.id) with
        | some tc =>
          match tc.originalHue with
          | some hue => Color.hsl hue (80 + sat * 15) (55 + light * 10)
          | none => p.color
        | none => p.color
      else p.color) := by
  unfold deactivateOne
  simp only [hb, Bool.false_eq_true, if_neg, not_false_eq_true]
  split
  · rfl
  · split <;> rfl

/-- Supporting postcondition of `deactivateParticleFlow` on one particle,
under the code's truthiness guard (the resolved exchange target id must be
truthy — see `deactivate_drops_exchange_toward_culture_zero` for the id-0
pending exchange that guard silently drops):
(1) a non-border particle with a pending exchange toward an existing culture
with a hue, whose resolved target id is truthy, gets that culture's hue
immediately, whatever its state;
(2) a non-border particle in `'flowing'` or `'activating'` is redirected
into `'returning'` with its home culture as target;
(3) a particle already `'contained'` with no pending exchange keeps its
color and state (no-op). -/
theorem deactivate_postcondition (cs : List Culture) (sat light : ℝ) (p : Particle) :
    (p.isBorderParticle = false → p.willExchange = some true →
      jsTruthy (exchangeTargetOf p) →
      ∀ tc hue, cs.find? (fun c => exchangeTargetOf p == some c.id) = some tc →
        tc.originalHue = some hue →
        (deactivateOne cs sat light p).color =
          Color.hsl hue (80 + sat * 15) (55 + light * 10)) ∧
    (p.isBorderParticle = false →
      (p.state = PState.flowing ∨ p.state = PState.activating) →
      (deactivateOne cs sat light p).state = PState.returning ∧
        (deactivateOne cs sat light p).targetCultureId = some p.homeCultureId) ∧
    (p.state = PState.contained → p.willExchange ≠ some true →
      (deactivateOne cs sat light p).color = p.color ∧
        (deactivateOne cs sat light p).state = PState.contained) := by
  refine ⟨?_, ?_, ?_⟩
  · intro hb hw ht tc hue hfind hhue
    rw [deactivateOne_color_eq cs sat light p hb, if_pos ⟨hw, ht⟩, hfind]
    show (match tc.originalHue with
      | some hue => Color.hsl hue (80 + sat * 15) (55 + light * 10)
      | none => p.color) = Color.hsl hue (80 + sat * 15) (55 + light * 10)
    rw [hhue]
  · intro hb hst
    unfold deactivateOne
    simp only [hb, Bool.false_eq_true, if_neg, not_false_eq_true]
    rw [if_pos hst]
    exact ⟨rfl, rfl⟩
  · intro hst hnw
    by_cases hb : p.isBorderParticle
    · unfold deactivateOne
      rw [if_pos hb]
      exact ⟨rfl, rfl⟩
    · have hb2 : p.isBorderParticle = false := Bool.eq_false_iff.mpr hb
      have hcol : ¬ (p.willExchange = some true ∧ jsTruthy (exchangeTargetOf p)) :=
        fun hc => hnw hc.1
      have h1 : ¬ (p.state = PState.flowing ∨ p.state = PState.activating) := by
        rw [hst]
        rintro (h | h) <;> exact PState.noConfusion h
      have h2 : ¬ p.state = PState.returning := by
        rw [hst]
        exact fun h => PState.noConfusion h
      constructor
      · rw [deactivateOne_color_eq cs sat light p hb2, if_neg hcol]
      · unfold deactivateOne
        simp only [hb2, Bool.false_eq_true, if_neg, not_false_eq_true]
        rw [if_neg h1, if_neg h2]

/-- `deactivate_postcondition` at a concrete input: a mid-flight
exchange-marked particle (truthy target id 7) gets the target hue and
turns home. -/
theorem deactivate_postcondition_witness :
    (deactParticle.isBorderParticle = false ∧ deactParticle.willExchange = some true ∧
      jsTruthy (exchangeTargetOf deactParticle) ∧
      ([deactTargetCulture].find? (fun c => exchangeTargetOf deactParticle == some c.id) =
        some deactTargetCulture) ∧ deactTargetCulture.originalHue = some 200) ∧
    (deactivateOne [deactTargetCulture] 0 0 deactParticle).color =
      Color.hsl 200 (80 + 0 * 15) (55 + 0 * 10) ∧
    ((deactivateOne [deactTargetCulture] 0 0 deactParticle).state = PState.returning ∧
      (deactivateOne [deactTargetCulture] 0 0 deactParticle).targetCultureId =
        some deactParticle.homeCultureId) :=
  ⟨⟨rfl, rfl, by decide, rfl, rfl⟩,
    (deactivate_postcondition [deactTargetCulture] 0 0 deactParticle).1 rfl rfl (by decide)
      deactTargetCulture 200 rfl rfl,
    (deactivate_postcondition [deactTargetCulture] 0 0 deactParticle).2.1 rfl (Or.inl rfl)⟩

/-- C3: the deactivation contract is violated by the code for a pending
exchange toward culture id 0.  Culture ids are 0-based (`id: index`), so
the first ingested culture is a legitimate exchange target; but the
truthiness guard `particle.exchangeTargetId || ...` /
`willExchange === true && exchangeTarget` treats the id 0 as falsy, so the
color mutation is skipped and the `willExchange`/`exchangeTargetId` markers
are then wiped — the pending exchange is silently lost, exactly what the
spec (and the code's own "do it now" comment) rules out.  The identical
particle marked toward culture id 7 does receive the hue, isolating the
falsy-zero slip. -/
theorem deactivate_drops_exchange_toward_culture_zero :
    ([zeroIdCulture, deactTargetCulture].find? (fun c => (some 0 : Option ℕ) == some c.id) =
        some zeroIdCulture) ∧
    zeroIdCulture.originalHue = some 40 ∧
    zeroTargetParticle.isBorderParticle = false ∧
    zeroTargetParticle.willExchange = some true ∧
    zeroTargetParticle.exchangeTargetId = some 0 ∧
    (deactivateOne [zeroIdCulture, deactTargetCulture] 0 0 zeroTargetParticle).color =
      zeroTargetParticle.color ∧
    (deactivateOne [zeroIdCulture, deactTargetCulture] 0 0 zeroTargetParticle).willExchange =
      none ∧
    (deactivateOne [zeroIdCulture, deactTargetCulture] 0 0
        zeroTargetParticle).exchangeTargetId = none ∧
    (deactivateOne [zeroIdCulture, deactTargetCulture] 0 0 sevenTargetParticle).color =
      Color.hsl 200 (80 + 0 * 15) (55 + 0 * 10) := by
  have hb : zeroTargetParticle.isBorderParticle = false := rfl
  have hguard : ¬ (zeroTargetParticle.willExchange = some true ∧
      jsTruthy (exchangeTargetOf zeroTargetParticle)) := by decide
  refine ⟨rfl, rfl, rfl, rfl, rfl, ?_, ?_, ?_, ?_⟩
  · rw [deactivateOne_color_eq [zeroIdCulture, deactTargetCulture] 0 0 zeroTargetParticle hb,
      if_neg hguard]
  · unfold deactivateOne
    simp only [hb, Bool.false_eq_true, if_neg, not_false_eq_true]
    rw [if_pos (show zeroTargetParticle.state = PState.flowing ∨
      zeroTargetParticle.state = PState.activating from Or.inl rfl)]
  · unfold deactivateOne
    simp only [hb, Bool.false_eq_true, if_neg, not_false_eq_true]
    rw [if_pos (show zeroTargetParticle.state = PState.flowing ∨
      zeroTargetParticle.state = PState.activating from Or.inl rfl)]
  · rw [deactivateOne_color_eq [zeroIdCulture, deactTargetCulture] 0 0 sevenTargetParticle rfl,
      if_pos ⟨rfl, by decide⟩]
    rw [show [zeroIdCulture, deactTargetCulture].find?
        (fun c => exchangeTargetOf sevenTargetParticle == some c.id) =
      some deactTargetCulture from rfl]
    show (match deactTargetCulture.originalHue with
      | some hue => Color.hsl hue (80 + 0 * 15) (55 + 0 * 10)
      | none => sevenTargetParticle.color) = Color.hsl 200 (80 + 0 * 15) (55 + 0 * 10)
    rfl

/-! ### Per-tick update theorems (C4) -/

/-- C4 counterexample: a `'flowing'` particle whose `targetCultureId`
matches no culture is *skipped* by the tick — it stays `'flowing'`; it does
not fall back to `'contained'` as the spec claims. -/
theorem tick_missing_target_counterexample :
    tickOne [blankCulture] VisualMode.default 0 0 tickRnd0 missTickParticle =
        missTickParticle ∧
      (tickOne [blankCulture] VisualMode.default 0 0 tickRnd0 missTickParticle).state =
        PState.flowing ∧
      (tickOne [blankCulture] VisualMode.default 0 0 tickRnd0 missTickParticle).state ≠
        PState.contained := by
  have hop : ¬ blankCulture.opacity < 0.15 := by
    show ¬ (0.5 : ℝ) < 0.15
    norm_num
  have hmiss : [blankCulture].find?
      (fun c => missTickParticle.targetCultureId == some c.id) = none := rfl
  have key : tickOne [blankCulture] VisualMode.default 0 0 tickRnd0 missTickParticle =
      missTickParticle := by
    show tickGuarded [blankCulture] VisualMode.default 0 0 tickRnd0 blankCulture
      missTickParticle = missTickParticle
    unfold tickGuarded
    rw [if_neg hop]
    show tickFlowingReturning [blankCulture] blankCulture tickRnd0 missTickParticle =
      missTickParticle
    unfold tickFlowingReturning
    rw [hmiss]
  refine ⟨key, ?_, ?_⟩
  · rw [key]
    rfl
  · rw [key]
    intro h
    exact PState.noConfusion h

/-- C4 (amended): a missing-target lookup during the tick never fails; the
affected particle is simply *skipped*: a `'flowing'`/`'returning'` particle
is left completely unchanged (same state, same last-known position), and an
`'activating'` particle past its delay only advances its state to
`'flowing'` once its blend has completed (that assignment happens before
the lookup) while its position stays put. -/
theorem tick_missing_target_skips (cs : List Culture) (mode : VisualMode)
    (time now : ℝ) (r : TickRnd) (p : Particle) (culture : Culture)
    (hfind : cs.find? (fun c => c.id == p.cultureId) = some culture)
    (hop : ¬ culture.opacity < 0.15)
    (hmiss : cs.find? (fun c => p.targetCultureId == some c.id) = none) :
    ((p.state = PState.flowing ∨ p.state = PState.returning) →
      tickOne cs mode time now r p = p) ∧
    (p.state = PState.activating → ¬ (now - p.activationStartTime < p.activationDelay) →
      tickOne cs mode time now r p =
        { p with
          state := if min 1 ((now - p.activationStartTime - p.activationDelay) / 1000) ≥ 1
            then PState.flowing else PState.activating }) := by
  constructor
  · intro hst
    unfold tickOne
    rw [hfind]
    show tickGuarded cs mode time now r culture p = p
    unfold tickGuarded
    rw [if_neg hop]
    rcases hst with h | h <;>
      · rw [h]
        show tickFlowingReturning cs culture r p = p
        unfold tickFlowingReturning
        rw [hmiss]
  · intro hst hdel
    unfold tickOne
    rw [hfind]
    show tickGuarded cs mode time now r culture p = _
    unfold tickGuarded
    rw [if_neg hop, hst]
    show tickActivating cs culture now r p = _
    unfold tickActivating
    rw [if_neg hdel]
    show (match cs.find? (fun c => p.targetCultureId == some c.id) with
      | none => { p with
          state := if min 1 ((now - p.activationStartTime - p.activationDelay) / 1000) ≥ 1
            then PState.flowing else PState.activating }
      | some tc =>
        activatingBlendStep culture tc
          (min 1 ((now - p.activationStartTime - p.activationDelay) / 1000))
          (if min 1 ((now - p.activationStartTime - p.activationDelay) / 1000) ≥ 1
            then PState.flowing else PState.activating) p) = _
    rw [hmiss]

/-- Witness for `tick_missing_target_skips` at the concrete missing-target
particle. -/
theorem tick_missing_target_skips_witness :
    ([blankCulture].find? (fun c => c.id == missTickParticle.cultureId) =
        some blankCulture ∧
      ¬ blankCulture.opacity < 0.15 ∧
      [blankCulture].find? (fun c => missTickParticle.targetCultureId == some c.id) =
        none ∧
      (missTickParticle.state = PState.flowing ∨ missTickParticle.state = PState.returning)) ∧
    tickOne [blankCulture] VisualMode.default 0 0 tickRnd0 missTickParticle =
      missTickParticle :=
  ⟨⟨rfl, by show ¬ (0.5 : ℝ) < 0.15; norm_num, rfl, Or.inl rfl⟩,
    (tick_missing_target_skips [blankCulture] VisualMode.default 0 0 tickRnd0
        missTickParticle blankCulture rfl
        (by show ¬ (0.5 : ℝ) < 0.15; norm_num) rfl).1 (Or.inl rfl)⟩

/-! ### Border-invariant theorems (C2) -/

theorem boundaryEdgeStep_state (hB θ : ℝ) (p : Particle) :
    (boundaryEdgeStep hB θ p).state = p.state := by
  simp only [boundaryEdgeStep]
  (repeat' split) <;> rfl

theorem boundaryEdgeStep_isBorder (hB θ : ℝ) (p : Particle) :
    (boundaryEdgeStep hB θ p).isBorderParticle = p.isBorderParticle := by
  simp only [boundaryEdgeStep]
  (repeat' split) <;> rfl

theorem foldl_boundaryEdgeStep_state (l : List ℕ) (hB : ℝ) (g : ℕ → ℝ) (p : Particle) :
    (l.foldl (fun q i => boundaryEdgeStep hB (g i) q) p).state = p.state := by
  induction l generalizing p with
  | nil => rfl
  | cons a t ih =>
    simp only [List.foldl_cons]
    rw [ih, boundaryEdgeStep_state]

theorem foldl_boundaryEdgeStep_isBorder (l : List ℕ) (hB : ℝ) (g : ℕ → ℝ) (p : Particle) :
    (l.foldl (fun q i => boundaryEdgeStep hB (g i) q) p).isBorderParticle =
      p.isBorderParticle := by
  induction l generalizing p with
  | nil => rfl
  | cons a t ih =>
    simp only [List.foldl_cons]
    rw [ih, boundaryEdgeStep_isBorder]

theorem enforcePolygonBoundary_state (p : Particle) (c : Culture) :
    (enforcePolygonBoundary p c).state = p.state := by
  unfold enforcePolygonBoundary
  exact foldl_boundaryEdgeStep_state _ _ _ _

theorem enforcePolygonBoundary_isBorder (p : Particle) (c : Culture) :
    (enforcePolygonBoundary p c).isBorderParticle = p.isBorderParticle := by
  unfold enforcePolygonBoundary
  exact foldl_boundaryEdgeStep_isBorder _ _ _ _

theorem interiorStep_state (c : Culture) (r : TickRnd) (p : Particle) :
    (interiorStep c r p).state = p.state := by
  unfold interiorStep
  rw [enforcePolygonBoundary_state]

theorem interiorStep_isBorder (c : Culture) (r : TickRnd) (p : Particle) :
    (interiorStep c r p).isBorderParticle = p.isBorderParticle := by
  unfold interiorStep
  rw [enforcePolygonBoundary_isBorder]

theorem activatingWaitStep_state (c : Culture) (r : TickRnd) (p : Particle) :
    (activatingWaitStep c r p).state = p.state := by
  unfold activatingWaitStep
  rw [enforcePolygonBoundary_state]

theorem activatingWaitStep_isBorder (c : Culture) (r : TickRnd) (p : Particle) :
    (activatingWaitStep c r p).isBorderParticle = p.isBorderParticle := by
  unfold activatingWaitStep
  rw [enforcePolygonBoundary_isBorder]

theorem arriveFlowing_isBorder (cs : List Culture) (culture tc : Culture)
    (r : TickRnd) (p : Particle) :
    (arriveFlowing cs culture tc r p).isBorderParticle = p.isBorderParticle := by
  unfold arriveFlowing
  split <;> rfl

theorem tickContained_state (culture : Culture) (mode : VisualMode)
    (time : ℝ) (r : TickRnd) (p : Particle) :
    (tickContained culture mode time r p).state = p.state := by
  unfold tickContained
  split
  · rfl
  · split
    · rfl
    · exact interiorStep_state _ _ _

theorem tickContained_isBorder (culture : Culture) (mode : VisualMode)
    (time : ℝ) (r : TickRnd) (p : Particle) :
    (tickContained culture mode time r p).isBorderParticle = p.isBorderParticle := by
  unfold tickContained
  split
  · rfl
  · split
    · rfl
    · exact interiorStep_isBorder _ _ _

theorem tickActivating_isBorder (cs : List Culture) (culture : Culture)
    (now : ℝ) (r : TickRnd) (p : Particle) :
    (tickActivating cs culture now r p).isBorderParticle = p.isBorderParticle := by
  simp only [tickActivating]
  by_cases hd : now - p.activationStartTime < p.activationDelay
  · rw [if_pos hd]
    exact activatingWaitStep_isBorder _ _ _
  · rw [if_neg hd]
    cases hfind : cs.find? (fun c => p.targetCultureId == some c.id) with
    | none => rfl
    | some tc => rfl

theorem tickFlowingReturning_isBorder (cs : List Culture) (culture : Culture)
    (r : TickRnd) (p : Particle) :
    (tickFlowingReturning cs culture r p).isBorderParticle = p.isBorderParticle := by
  simp only [tickFlowingReturning]
  cases hfind : cs.find? (fun c => p.targetCultureId == some c.id) with
  | none => rfl
  | some tc =>
    (repeat' split) <;> first
      | rfl
      | exact arriveFlowing_isBorder _ _ _ _ _

theorem tickGuarded_isBorder (cs : List Culture) (mode : VisualMode)
    (time now : ℝ) (r : TickRnd) (culture : Culture) (p : Particle) :
    (tickGuarded cs mode time now r culture p).isBorderParticle =
      p.isBorderParticle := by
  unfold tickGuarded
  split
  · rfl
  · split
    · exact tickContained_isBorder _ _ _ _ _
    · exact tickActivating_isBorder _ _ _ _ _
    · exact tickFlowingReturning_isBorder _ _ _ _
    · exact tickFlowingReturning_isBorder _ _ _ _

theorem tickGuarded_state_contained (cs : List Culture) (mode : VisualMode)
    (time now : ℝ) (r : TickRnd) (culture : Culture) (p : Particle)
    (h : p.state = PState.contained) :
    (tickGuarded cs mode time now r culture p).state = PState.contained := by
  unfold tickGuarded
  split
  · exact h
  · rw [h]
    show (tickContained culture mode time r p).state = PState.contained
    rw [tickContained_state]
    exact h

theorem tickOne_isBorder (cs : List Culture) (mode : VisualMode)
    (time now : ℝ) (r : TickRnd) (p : Particle) :
    (tickOne cs mode time now r p).isBorderParticle = p.isBorderParticle := by
  unfold tickOne
  split
  · rfl
  · exact tickGuarded_isBorder _ _ _ _ _ _ _

theorem tickOne_state_contained (cs : List Culture) (mode : VisualMode)
    (time now : ℝ) (r : TickRnd) (p : Particle)
    (h : p.state = PState.contained) :
    (tickOne cs mode time now r p).state = PState.contained := by
  unfold tickOne
  split
  · exact h
  · exact tickGuarded_state_contained _ _ _ _ _ _ _ h

/-- The C2 invariant: every border particle is contained. -/
def BorderInv (ps : List Particle) : Prop :=
  ∀ p ∈ ps, p.isBorderParticle = true → p.state = PState.contained

theorem tickParticles_mem (cs : List Culture) (mode : VisualMode)
    (time now : ℝ) (r : ℕ → TickRnd) :
    ∀ (l : List Particle) (i : ℕ) (q : Particle),
      q ∈ tickParticles cs mode time now r l i →
      ∃ p ∈ l, ∃ j, q = tickOne cs mode time now (r j) p := by
  intro l
  induction l with
  | nil =>
    intro i q hq
    simp [tickParticles] at hq
  | cons p rest ih =>
    intro i q hq
    unfold tickParticles at hq
    rcases List.mem_cons.mp hq with h | h
    · exact ⟨p, List.mem_cons_self p rest, i, h⟩
    · obtain ⟨p2, hp2, j, hj⟩ := ih (i + 1) q h
      exact ⟨p2, List.mem_cons_of_mem _ hp2, j, hj⟩

theorem activateGo_preserves_inv (focusedId : ℕ) (connectedIds : List ℕ)
    (perKinship : ℕ) (revCount : ℕ → ℕ) (now : ℝ) (r : ActRnd) :
    ∀ (l : List Particle) (i : ℕ) (cnt used : ℕ → ℕ), BorderInv l →
      BorderInv (activateGo focusedId connectedIds perKinship revCount now r l i cnt used) := by
  intro l
  induction l with
  | nil =>
    intro i cnt used _ q hq
    simp [activateGo] at hq
  | cons p rest ih =>
    intro i cnt used hinv q hq
    have hinvr : BorderInv rest := fun p2 h2 => hinv p2 (List.mem_cons_of_mem _ h2)
    have hinvp := hinv p (List.mem_cons_self p rest)
    unfold activateGo at hq
    by_cases hb : p.isBorderParticle
    · rw [if_pos hb] at hq
      rcases List.mem_cons.mp hq with h | h
      · subst h
        exact hinvp
      · exact ih (i + 1) cnt used hinvr q h
    · rw [if_neg hb] at hq
      have hbf : p.isBorderParticle = false := Bool.eq_false_iff.mpr hb
      by_cases hfw : p.homeCultureId = focusedId ∧ r.flows i
      · rw [if_pos hfw] at hq
        rcases List.mem_cons.mp hq with h | h
        · subst h
          intro hqb
          rw [show (({ p with
              state := PState.activating
              targetCultureId := some (connectedIds.getD (r.pick i) 0)
              flowPartner := some focusedId
              flowProgress := 0
              activationDelay := r.delay i * 2000
              activationStartTime := now
              baseSpeed := some (0.3 + r.speed i * 0.3)
              willExchange := some (decide (cnt (connectedIds.getD (r.pick i) 0) < perKinship))
              exchangeTargetId :=
                if (decide (cnt (connectedIds.getD (r.pick i) 0) < perKinship) : Bool) = true
                then some (connectedIds.getD (r.pick i) 0) else none } : Particle).isBorderParticle)
            = p.isBorderParticle from rfl] at hqb
          rw [hbf] at hqb
          exact absurd hqb (by simp)
        · exact ih (i + 1) _ used hinvr q h
      · rw [if_neg hfw] at hq
        by_cases hrv : p.homeCultureId ∈ connectedIds ∧ r.revFlows i
        · rw [if_pos hrv] at hq
          rcases List.mem_cons.mp hq with h | h
          · subst h
            intro hqb
            rw [show (({ p with
                state := PState.activating
                targetCultureId := some focusedId
                flowPartner := some p.homeCultureId
                flowProgress := 0
                activationDelay := r.delay i * 2000
                activationStartTime := now
                baseSpeed := some (0.3 + 0.3 * 0.3)
                willExchange := some (decide (used p.homeCultureId < revCount p.homeCultureId))
                exchangeTargetId :=
                  if (decide (used p.homeCultureId < revCount p.homeCultureId) : Bool) = true
                  then some focusedId else none } : Particle).isBorderParticle)
              = p.isBorderParticle from rfl] at hqb
            rw [hbf] at hqb
            exact absurd hqb (by simp)
          · exact ih (i + 1) cnt _ hinvr q h
        · rw [if_neg hrv] at hq
          rcases List.mem_cons.mp hq with h | h
          · subst h
            exact hinvp
          · exact ih (i + 1) cnt used hinvr q h

theorem deactivateOne_isBorder (cs : List Culture) (sat light : ℝ) (p : Particle) :
    (deactivateOne cs sat light p).isBorderParticle = p.isBorderParticle := by
  unfold deactivateOne
  (repeat' split) <;> rfl

theorem deactivateOne_border_contained (cs : List Culture) (sat light : ℝ)
    (p : Particle) (hb : p.isBorderParticle = true) :
    (deactivateOne cs sat light p).state = PState.contained := by
  unfold deactivateOne
  rw [if_pos hb]

theorem deactivateParticleFlow_preserves_inv (cs : List Culture) (r : ℕ → ℝ × ℝ) :
    ∀ (l : List Particle) (i : ℕ), BorderInv l →
      BorderInv (deactivateParticleFlow cs r l i) := by
  intro l
  induction l with
  | nil =>
    intro i _ q hq
    simp [deactivateParticleFlow] at hq
  | cons p rest ih =>
    intro i hinv q hq
    have hinvr : BorderInv rest := fun p2 h2 => hinv p2 (List.mem_cons_of_mem _ h2)
    unfold deactivateParticleFlow at hq
    rcases List.mem_cons.mp hq with h | h
    · subst h
      intro hqb
      rw [deactivateOne_isBorder] at hqb
      exact deactivateOne_border_contained _ _ _ _ hqb
    · exact ih (i + 1) hinvr q h

theorem resetOne_state (rv : ℝ × ℝ) (p : Particle) :
    (resetOne rv p).state = PState.contained := rfl

theorem randomizeParticles_preserves_inv (cultureIds : List ℕ) (rv : ℕ → ℝ × ℝ) :
    ∀ (l : List Particle) (i : ℕ), BorderInv l →
      BorderInv (randomizeParticles cultureIds rv l i) := by
  intro l
  induction l with
  | nil =>
    intro i _ q hq
    simp [randomizeParticles] at hq
  | cons p rest ih =>
    intro i hinv q hq
    have hinvr : BorderInv rest := fun p2 h2 => hinv p2 (List.mem_cons_of_mem _ h2)
    have hinvp := hinv p (List.mem_cons_self p rest)
    unfold randomizeParticles at hq
    rcases List.mem_cons.mp hq with h | h
    · subst h
      split
      · intro _
        exact resetOne_state _ _
      · intro hqb
        exact hinvp hqb
    · exact ih (i + 1) hinvr q h

theorem borderInit_state (c : Culture) (hue : Option ℝ) (n j : ℕ) (q : InitRnd) :
    (borderInit c hue n j q).state = PState.contained := rfl

theorem interiorInit_state (c : Culture) (q : InitRnd) :
    (interiorInit c q).state = PState.contained := rfl

theorem parentParticleInit_state (parent : Culture) (lang : ℝ) (q : InitRnd) :
    (parentParticleInit parent lang q).state = PState.contained := rfl

theorem resetBordersGo_preserves_inv (rb : ℕ → ℕ → InitRnd) (hf : ℕ → ℝ) :
    ∀ (cs : List Culture) (ci : ℕ) (ps : List Particle), BorderInv ps →
      BorderInv (resetBordersGo rb hf cs ci ps) := by
  intro cs
  induction cs with
  | nil =>
    intro ci ps hinv
    exact hinv
  | cons c rest ih =>
    intro ci ps hinv
    unfold resetBordersGo
    split
    · exact ih (ci + 1) ps hinv
    · refine ih (ci + 1) _ ?_
      intro q hq hqb
      rcases List.mem_append.mp hq with h | h
      · exact hinv q (List.mem_filter.mp h).1 hqb
      · obtain ⟨j, _, hj⟩ := List.mem_map.mp h
        rw [← hj]
        exact borderInit_state _ _ _ _ _

theorem initGo_all_contained (ri rb : ℕ → ℕ → InitRnd) :
    ∀ (cs : List Culture) (ci : ℕ) (q : Particle), q ∈ initGo ri rb cs ci →
      q.state = PState.contained := by
  intro cs
  induction cs with
  | nil =>
    intro ci q hq
    simp [initGo] at hq
  | cons c rest ih =>
    intro ci q hq
    unfold initGo at hq
    rcases List.mem_append.mp hq with h | h
    · split at h
      · simp at h
      · rcases List.mem_append.mp h with h2 | h2
        · obtain ⟨j, _, hj⟩ := List.mem_map.mp h2
          rw [← hj]
          exact interiorInit_state _ _
        · obtain ⟨j, _, hj⟩ := List.mem_map.mp h2
          rw [← hj]
          exact borderInit_state _ _ _ _ _
    · exact ih (ci + 1) q h

theorem simStep_preserves_inv {ps ps2 : List Particle} (h : SimStep ps ps2)
    (hinv : BorderInv ps) : BorderInv ps2 := by
  cases h with
  | tick cs mode time now r ps =>
    intro q hq hqb
    obtain ⟨p, hp, j, hj⟩ := tickParticles_mem cs mode time now r ps 0 q hq
    subst hj
    rw [tickOne_isBorder] at hqb
    exact tickOne_state_contained _ _ _ _ _ _ (hinv p hp hqb)
  | swap ps i j c now phase hi hj hij hbi hsi hhj hsj hbj =>
    intro q hq hqb
    rcases List.mem_or_eq_of_mem_set hq with hq2 | hq2
    · rcases List.mem_or_eq_of_mem_set hq2 with hq3 | hq3
      · exact hinv q hq3 hqb
      · subst hq3
        simp at hqb
    · subst hq2
      exact hsj
  | activate focusedId connectedIds now r ps =>
    unfold activateParticleFlow
    split
    · exact hinv
    · exact activateGo_preserves_inv _ _ _ _ _ _ ps 0 _ _ hinv
  | deactivate cs r ps =>
    exact deactivateParticleFlow_preserves_inv cs r ps 0 hinv
  | randomize cultureIds rv ps =>
    exact randomizeParticles_preserves_inv cultureIds rv ps 0 hinv
  | resetBorders cs rb hf ps =>
    exact resetBordersGo_preserves_inv rb hf cs 0 ps hinv
  | spawnParent parent lang q n ps =>
    intro q2 hq2 hqb
    rcases List.mem_append.mp hq2 with h | h
    · exact hinv q2 h hqb
    · obtain ⟨j, _, hj⟩ := List.mem_map.mp h
      rw [← hj]
      exact parentParticleInit_state _ _ _
  | discard f ps =>
    intro q hq hqb
    exact hinv q (List.mem_filter.mp hq).1 hqb

/-- C2: in every reachable simulation state — across any number of ticks,
focus activations, deactivations, border/interior swaps, randomizes, border
resets and aggregation changes — every border particle is `'contained'`. -/
theorem border_particles_always_contained (ps : List Particle) (h : Reachable ps) :
    ∀ p ∈ ps, p.isBorderParticle = true → p.state = PState.contained := by
  induction h with
  | init cs ri rb =>
    intro p hp _
    exact initGo_all_contained _ _ cs 0 p hp
  | step _ hstep ih =>
    exact simStep_preserves_inv hstep ih

/-- Witness for `border_particles_always_contained` at a concrete freshly
initialized state. -/
theorem border_particles_always_contained_witness :
    Reachable (initGo (fun _ _ => initRnd0) (fun _ _ => initRnd0) [blankCulture] 0) ∧
      ∀ p ∈ initGo (fun _ _ => initRnd0) (fun _ _ => initRnd0) [blankCulture] 0,
        p.isBorderParticle = true → p.state = PState.contained :=
  ⟨Reachable.init [blankCulture] (fun _ _ => initRnd0) (fun _ _ => initRnd0),
    border_particles_always_contained _
      (Reachable.init [blankCulture] (fun _ _ => initRnd0) (fun _ _ => initRnd0))⟩

/-! ### Randomize / particle-count theorems (C7) -/

theorem randomizeHead_fields (ids : List ℕ) (rv : ℝ × ℝ) (p : Particle) :
    (if p.homeCultureId ∈ ids then resetOne rv p else p).color = p.color ∧
      (if p.homeCultureId ∈ ids then resetOne rv p else p).isBorderParticle =
        p.isBorderParticle ∧
      (if p.homeCultureId ∈ ids then resetOne rv p else p).homeCultureId =
        p.homeCultureId ∧
      (if p.homeCultureId ∈ ids then resetOne rv p else p).x = p.x ∧
      (if p.homeCultureId ∈ ids then resetOne rv p else p).y = p.y := by
  split <;> exact ⟨rfl, rfl, rfl, rfl, rfl⟩

theorem randomizeParticles_length (ids : List ℕ) (rv : ℕ → ℝ × ℝ) :
    ∀ (l : List Particle) (i : ℕ), (randomizeParticles ids rv l i).length = l.length := by
  intro l
  induction l with
  | nil => intro i; rfl
  | cons p rest ih =>
    intro i
    unfold randomizeParticles
    simp only [List.length_cons, ih]

theorem randomizeParticles_pointwise (ids : List ℕ) (rv : ℕ → ℝ × ℝ) :
    ∀ (l : List Particle) (i j : ℕ),
      ((randomizeParticles ids rv l i).getD j blankParticle).color =
          (l.getD j blankParticle).color ∧
        ((randomizeParticles ids rv l i).getD j blankParticle).isBorderParticle =
          (l.getD j blankParticle).isBorderParticle ∧
        ((randomizeParticles ids rv l i).getD j blankParticle).homeCultureId =
          (l.getD j blankParticle).homeCultureId ∧
        ((randomizeParticles ids rv l i).getD j blankParticle).x =
          (l.getD j blankParticle).x ∧
        ((randomizeParticles ids rv l i).getD j blankParticle).y =
          (l.getD j blankParticle).y := by
  intro l
  induction l with
  | nil =>
    intro i j
    exact ⟨rfl, rfl, rfl, rfl, rfl⟩
  | cons p rest ih =>
    intro i j
    unfold randomizeParticles
    cases j with
    | zero =>
      simp only [List.getD_cons_zero]
      exact randomizeHead_fields ids (rv i) p
    | succ j2 =>
      simp only [List.getD_cons_succ]
      exact ih (i + 1) j2

theorem randomizeParticles_countHome (ids : List ℕ) (rv : ℕ → ℝ × ℝ) (cid : ℕ) :
    ∀ (l : List Particle) (i : ℕ),
      countHome cid (randomizeParticles ids rv l i) = countHome cid l := by
  intro l
  induction l with
  | nil => intro i; rfl
  | cons p rest ih =>
    intro i
    unfold randomizeParticles
    simp only [countHome, List.countP_cons] at ih ⊢
    rw [ih (i + 1), (randomizeHead_fields ids (rv i) p).2.2.1]

theorem randomizeIter_countHome (ids : List ℕ) (rv : ℕ → ℝ × ℝ) (cid : ℕ)
    (ps : List Particle) :
    ∀ k, countHome cid ((fun l => randomizeParticles ids rv l 0)^[k] ps) =
      countHome cid ps := by
  intro k
  induction k with
  | zero => rfl
  | succ k2 ih =>
    rw [Function.iterate_succ_apply', randomizeParticles_countHome]
    exact ih

theorem initCultureParticles_count_self (c : Culture) (ri rb : ℕ → InitRnd) :
    countHome c.id (initCultureParticles c ri rb) =
      c.interiorParticleCount + c.borderParticleCount := by
  unfold initCultureParticles countHome
  rw [List.countP_append, List.countP_map, List.countP_map]
  have h1 : List.countP ((fun p => p.homeCultureId == c.id) ∘ fun j => interiorInit c (ri j))
      (List.range c.interiorParticleCount) = (List.range c.interiorParticleCount).length := by
    rw [List.countP_eq_length]
    intro j _
    simp [Function.comp, interiorInit]
  have h2 : List.countP ((fun p => p.homeCultureId == c.id) ∘
      fun j => borderInit c c.originalHue c.borderParticleCount j (rb j))
      (List.range c.borderParticleCount) = (List.range c.borderParticleCount).length := by
    rw [List.countP_eq_length]
    intro j _
    simp [Function.comp, borderInit]
  rw [h1, h2, List.length_range, List.length_range]

theorem initCultureParticles_count_other (c : Culture) (ri rb : ℕ → InitRnd)
    (cid : ℕ) (h : c.id ≠ cid) :
    countHome cid (initCultureParticles c ri rb) = 0 := by
  unfold initCultureParticles countHome
  rw [List.countP_append, List.countP_map, List.countP_map]
  have h1 : List.countP ((fun p => p.homeCultureId == cid) ∘ fun j => interiorInit c (ri j))
      (List.range c.interiorParticleCount) = 0 := by
    rw [List.countP_eq_zero]
    intro j _
    simp [Function.comp, interiorInit, h]
  have h2 : List.countP ((fun p => p.homeCultureId == cid) ∘
      fun j => borderInit c c.originalHue c.borderParticleCount j (rb j))
      (List.range c.borderParticleCount) = 0 := by
    rw [List.countP_eq_zero]
    intro j _
    simp [Function.comp, borderInit, h]
  rw [h1, h2]

theorem initGo_countHome_zero (ri rb : ℕ → ℕ → InitRnd) (cid : ℕ) :
    ∀ (cs : List Culture) (ci : ℕ), (∀ c2 ∈ cs, c2.id ≠ cid) →
      countHome cid (initGo ri rb cs ci) = 0 := by
  intro cs
  induction cs with
  | nil => intro ci _; rfl
  | cons c rest ih =>
    intro ci hne
    unfold initGo
    simp only [countHome, List.countP_append] at ih ⊢
    rw [ih (ci + 1) (fun c2 h2 => hne c2 (List.mem_cons_of_mem _ h2))]
    split
    · rfl
    · have := initCultureParticles_count_other c (ri ci) (rb ci) cid
        (hne c (List.mem_cons_self c rest))
      simp only [countHome] at this
      rw [this]

theorem initGo_countHome (ri rb : ℕ → ℕ → InitRnd) :
    ∀ (cs : List Culture) (ci : ℕ) (c : Culture),
      cs.Pairwise (fun a b => a.id ≠ b.id) → c ∈ cs → c.isParentGroup = false →
      countHome c.id (initGo ri rb cs ci) =
        c.interiorParticleCount + c.borderParticleCount := by
  intro cs
  induction cs with
  | nil =>
    intro ci c _ hc
    simp at hc
  | cons c0 rest ih =>
    intro ci c hpw hc hnp
    have hpw2 := List.pairwise_cons.mp hpw
    unfold initGo
    rcases List.mem_cons.mp hc with h | h
    · subst h
      simp only [countHome, List.countP_append]
      have hz := initGo_countHome_zero ri rb c.id rest (ci + 1)
        (fun c2 h2 => (hpw2.1 c2 h2).symm)
      simp only [countHome] at hz
      rw [hz]
      rw [hnp, if_neg (by simp)]
      have := initCultureParticles_count_self c (ri ci) (rb ci)
      simp only [countHome] at this
      rw [this]
      omega
    · simp only [countHome, List.countP_append]
      have hih := ih (ci + 1) c hpw2.2 h hnp
      simp only [countHome] at hih
      rw [hih]
      split
      · simp
      · have := initCultureParticles_count_other c0 (ri ci) (rb ci) c.id
          (hpw2.1 c h)
        simp only [countHome] at this
        rw [this]
        omega

/-- C7: the particle pass of `randomizeCulturePositions` never creates or
destroys particles; for every particle it preserves color, the
border/interior class and the home culture (changing only the container id,
lifecycle state, flow fields and velocity — the local position is not even
touched); consequently each culture's particle count equals its configured
`interior + border` count after any number of randomize calls on an
initialized state. -/
theorem randomize_preserves_particles (ids : List ℕ) (rv : ℕ → ℝ × ℝ)
    (ps : List Particle) :
    (randomizeParticles ids rv ps 0).length = ps.length ∧
    (∀ j, ((randomizeParticles ids rv ps 0).getD j blankParticle).color =
        (ps.getD j blankParticle).color ∧
      ((randomizeParticles ids rv ps 0).getD j blankParticle).isBorderParticle =
        (ps.getD j blankParticle).isBorderParticle ∧
      ((randomizeParticles ids rv ps 0).getD j blankParticle).homeCultureId =
        (ps.getD j blankParticle).homeCultureId ∧
      ((randomizeParticles ids rv ps 0).getD j blankParticle).x =
        (ps.getD j blankParticle).x ∧
      ((randomizeParticles ids rv ps 0).getD j blankParticle).y =
        (ps.getD j blankParticle).y) ∧
    (∀ cid k, countHome cid ((fun l => randomizeParticles ids rv l 0)^[k] ps) =
      countHome cid ps) ∧
    (∀ (cs : List Culture) (ri rb : ℕ → ℕ → InitRnd) (c : Culture) (k : ℕ),
      cs.Pairwise (fun a b => a.id ≠ b.id) → c ∈ cs → c.isParentGroup = false →
      countHome c.id
          ((fun l => randomizeParticles ids rv l 0)^[k] (initGo ri rb cs 0)) =
        c.interiorParticleCount + c.borderParticleCount) := by
  refine ⟨randomizeParticles_length ids rv ps 0,
    fun j => randomizeParticles_pointwise ids rv ps 0 j,
    fun cid k => randomizeIter_countHome ids rv cid ps k, ?_⟩
  intro cs ri rb c k hpw hc hnp
  rw [randomizeIter_countHome]
  exact initGo_countHome ri rb cs 0 c hpw hc hnp

/-- Witness for `randomize_preserves_particles`: one randomize on the
initial state of a single culture keeps its `50 + 12` particles. -/
theorem randomize_preserves_particles_witness :
    (([blankCulture] : List Culture).Pairwise (fun a b => a.id ≠ b.id) ∧
      blankCulture ∈ ([blankCulture] : List Culture) ∧
      blankCulture.isParentGroup = false) ∧
    countHome blankCulture.id
        ((fun l => randomizeParticles [1] (fun _ => (0, 0)) l 0)^[1]
          (initGo (fun _ _ => initRnd0) (fun _ _ => initRnd0) [blankCulture] 0)) =
      blankCulture.interiorParticleCount + blankCulture.borderParticleCount :=
  ⟨⟨List.pairwise_singleton _ _, List.mem_singleton.mpr rfl, rfl⟩,
    (randomize_preserves_particles [1] (fun _ => (0, 0))
        (initGo (fun _ _ => initRnd0) (fun _ _ => initRnd0) [blankCulture] 0)).2.2.2
      [blankCulture] (fun _ _ => initRnd0) (fun _ _ => initRnd0) blankCulture 1
      (List.pairwise_singleton _ _) (List.mem_singleton.mpr rfl) rfl⟩

end Belonging
